import Mathlib

/-! # twicat: a verification development

A shallow embedding of `main.go` (the `twicat` command) and proofs of the
properties its specification states.

Conventions of the embedding:

* in the main sequence a Go `string` is the list of its Unicode code points
  (`GoString`): the strings inspected there are text (prompt input is assembled
  from runes, JSON decoding yields valid UTF-8), and on valid UTF-8 the
  byte-wise operations used (`==`, `strings.HasSuffix` with an ASCII suffix,
  concatenation) agree with their code-point versions;
* in the callback listener a Go `string` is the list of its bytes
  (`ByteString`): a request body is arbitrary bytes and so is the result of
  percent-decoding;
* a Go `error` is represented by its message, `nil` by `none`;
* a Go function returning `(T, error)` returns a pair, as in Go both
  components are always produced;
* the results of the external calls (terminal prompts, HTTP requests, JSON
  decoding, process start) are inputs of the embedded functions (`World`);
* the library functions the program calls (`regexp`, `strings`, `unicode`,
  `strconv`, `net/url`, `net/http`) are embedded from their documented
  behaviour.
-/

namespace Twicat

/-- A Go `string`, as the sequence of its code points. -/
abbrev GoString := List Char

/-- A Go `error` value, represented by the text `Error()` returns. -/
abbrev GoError := GoString

/-! ## `regexp`: syntax trees and matching -/

/-- The operators of `regexp/syntax` that the two patterns of `main.go` use. -/
inductive Regexp where
  /-- The operator `^` (without the multi-line flag): beginning of text -/
  | beginText : Regexp
  /-- The operator `$` (without the multi-line flag): end of text -/
  | endText : Regexp
  /-- A literal character -/
  | literal (c : Char) : Regexp
  /-- A character class, as its list of inclusive code-point ranges -/
  | charClass (ranges : List (Nat × Nat)) : Regexp
  /-- The repetition `r*` -/
  | star (r : Regexp) : Regexp
  /-- The counted repetition `r{n}` -/
  | repeatN (r : Regexp) (n : Nat) : Regexp
  /-- Concatenation -/
  | cat (a b : Regexp) : Regexp

/-- A position in the text being matched: whether it is the beginning of the
text, and the input that remains. -/
abbrev Pos := Bool × GoString

/-- Membership of a character in a class given by inclusive ranges. -/
def inRanges (ranges : List (Nat × Nat)) (c : Char) : Bool :=
  ranges.any (fun r => decide (r.1 ≤ c.toNat) && decide (c.toNat ≤ r.2))

/-- Consume one character satisfying `p`. -/
def stepClass (p : Char → Bool) : Pos → List Pos
  | (_, c :: rest) => if p c then [(false, rest)] else []
  | (_, []) => []

/-- All positions reachable by zero or more iterations of `f`, each iteration
consuming input (an empty iteration reaches nothing new). -/
def iterStar (f : Pos → List Pos) : Nat → Pos → List Pos
  | 0, st => [st]
  | fuel + 1, st =>
    st :: ((f st).filter (fun st' => decide (st'.2.length < st.2.length))).flatMap (iterStar f fuel)

/-- All positions reachable by exactly `n` iterations of `f`. -/
def iterN (f : Pos → List Pos) : Nat → Pos → List Pos
  | 0, st => [st]
  | n + 1, st => (f st).flatMap (iterN f n)

/-- All positions at which a match of the expression that starts at the given
position can end. -/
def Regexp.run : Regexp → Pos → List Pos
  | .beginText, st => if st.1 then [st] else []
  | .endText, st => if st.2.isEmpty then [st] else []
  | .literal c, st => stepClass (fun x => x == c) st
  | .charClass rs, st => stepClass (inRanges rs) st
  | .star r, st => iterStar r.run st.2.length st
  | .repeatN r n, st => iterN r.run n st
  | .cat a b, st => (a.run st).flatMap b.run

/-- Every position of the text at which a match may start. -/
def startPositions : Bool → GoString → List Pos
  | b, [] => [(b, [])]
  | b, c :: cs => (b, c :: cs) :: startPositions false cs

/-- The method `(*Regexp).MatchString`: whether the text contains a match. -/
def Regexp.MatchString (r : Regexp) (s : GoString) : Bool :=
  (startPositions true s).any (fun st => !(r.run st).isEmpty)

/-- The Perl class `\s` of `regexp/syntax`: `[\t\n\f\r ]`. -/
def perlSpace : Regexp := .charClass [(0x9, 0xa), (0xc, 0xd), (0x20, 0x20)]

/-- The class `[0-9a-f]`. -/
def lowerHex : Regexp := .charClass [(0x30, 0x39), (0x61, 0x66)]

/-- The pattern `^\s*AC[0-9a-f]{32}\s*$`, parsed. -/
def accountSidPattern : Regexp :=
  .cat .beginText (.cat (.star perlSpace) (.cat (.literal 'A') (.cat (.literal 'C')
    (.cat (.repeatN lowerHex 32) (.cat (.star perlSpace) .endText)))))

/-- The pattern `^\s*[0-9a-f]{32}\s*$`, parsed. -/
def authTokenPattern : Regexp :=
  .cat .beginText (.cat (.star perlSpace)
    (.cat (.repeatN lowerHex 32) (.cat (.star perlSpace) .endText)))

/-- The `validate` closure of `promptAccountSid`. -/
def accountSidValidate (input : GoString) : Option GoError :=
  if !accountSidPattern.MatchString input then some "Invalid Account SID".toList else none

/-- The `validate` closure of `promptAuthToken`. -/
def authTokenValidate (input : GoString) : Option GoError :=
  if !authTokenPattern.MatchString input then some "Invalid Auth Token".toList else none

/-! ## The shapes the two patterns describe -/

/-- The characters of the class `\s`: tab, line feed, form feed, carriage
return and space (the vertical tab is not among them). -/
def IsPerlSpace (c : Char) : Prop :=
  c = '\t' ∨ c = '\n' ∨ c = '\x0c' ∨ c = '\r' ∨ c = ' '

/-- The characters of the class `[0-9a-f]`. -/
def IsLowerHex (c : Char) : Prop :=
  ('0' ≤ c ∧ c ≤ '9') ∨ ('a' ≤ c ∧ c ≤ 'f')

/-- Zero or more `\s`, then `AC`, then exactly 32 of `[0-9a-f]`, then zero or
more `\s`. -/
def AccountSidShape (s : GoString) : Prop :=
  ∃ pre hex post : GoString, s = pre ++ ('A' :: 'C' :: (hex ++ post)) ∧
    (∀ c ∈ pre, IsPerlSpace c) ∧ hex.length = 32 ∧ (∀ c ∈ hex, IsLowerHex c) ∧
    (∀ c ∈ post, IsPerlSpace c)

/-- Zero or more `\s`, then exactly 32 of `[0-9a-f]`, then zero or more `\s`. -/
def AuthTokenShape (s : GoString) : Prop :=
  ∃ pre hex post : GoString, s = pre ++ (hex ++ post) ∧
    (∀ c ∈ pre, IsPerlSpace c) ∧ hex.length = 32 ∧ (∀ c ∈ hex, IsLowerHex c) ∧
    (∀ c ∈ post, IsPerlSpace c)

/-- Acceptance of a continuation that never looks at the beginning-of-text flag. -/
def FlagFree (X : Regexp) : Prop :=
  ∀ (b b' : Bool) (l : GoString), (∃ x, x ∈ X.run (b, l)) → ∃ x, x ∈ X.run (b', l)

/-! ## `strings`, `unicode`, `strconv` -/

/-- The function `unicode.IsSpace`: in Latin-1 the characters `\t \n \v \f \r`, space,
U+0085 and U+00A0; beyond Latin-1 the code points with the `White_Space`
property. -/
def isSpace (c : Char) : Bool :=
  let r := c.toNat
  if r ≤ 0xFF then
    r == 0x09 || r == 0x0A || r == 0x0B || r == 0x0C || r == 0x0D || r == 0x20 ||
      r == 0x85 || r == 0xA0
  else
    r == 0x1680 || (decide (0x2000 ≤ r) && decide (r ≤ 0x200A)) || r == 0x2028 ||
      r == 0x2029 || r == 0x202F || r == 0x205F || r == 0x3000

/-- The function `strings.TrimSpace`: the string without its leading and trailing white
space, as defined by Unicode. -/
def TrimSpace (s : GoString) : GoString :=
  ((s.dropWhile isSpace).reverse.dropWhile isSpace).reverse

/-- The function `strings.HasSuffix`:
`len(s) >= len(suffix) && s[len(s)-len(suffix):] == suffix`. -/
def HasSuffix (s suffix : GoString) : Bool :=
  decide (suffix.length ≤ s.length) && (s.drop (s.length - suffix.length) == suffix)

/-- The function `strconv.Itoa`: the decimal rendering of an integer. -/
def Itoa (i : Int) : GoString :=
  if i < 0 then '-' :: Nat.toDigits 10 i.natAbs else Nat.toDigits 10 i.toNat

/-! ## The prompts -/

/-- The fields of `promptui.Prompt` that `main.go` sets. -/
structure Prompt where
  Label : GoString
  Validate : GoString → Option GoError
  Mask : Option Char

/-- The fields of `promptui.Select` that `main.go` sets. -/
structure Select where
  Label : GoString
  Items : List GoString

/-! ## The JSON documents -/

structure Capabilities where
  Sms : Bool

structure IncomingPhoneNumber where
  Sid : GoString
  PhoneNumber : GoString
  Capabilities : Capabilities
  Status : GoString

structure IncomingPhoneNumbersResponse where
  IncomingPhoneNumbers : List IncomingPhoneNumber

structure Config where
  Addr : GoString

structure Tunnel where
  PublicURL : GoString
  Config : Config
  Proto : GoString

structure TunnelsResponse where
  Tunnels : List Tunnel

/-! ## The outside world -/

/-- The outcomes of the calls `main.go` makes to the terminal, the network and
the operating system. -/
structure World where
  /-- The call `net.Listen("tcp", ":0")`: the port the listener is bound to, and the error -/
  listen : Int × Option GoError
  /-- The call `cmd.Start()` of the command with the given name and arguments -/
  cmdStart : GoString → List GoString → Option GoError
  /-- The call `prompt.Run()` of a `promptui.Prompt`: result and error -/
  promptRun : Prompt → GoString × Option GoError
  /-- The call `prompt.Run()` of a `promptui.Select`: index, selected item, error -/
  selectRun : Select → Int × GoString × Option GoError
  /-- The call `http.NewRequest(http.MethodGet, url, nil)` -/
  newRequest : GoString → Option GoError
  /-- The call `client.Do` of the GET request to the URL with the basic-auth user and password -/
  clientDo : GoString → GoString → GoString → Option GoError
  /-- Decoding the body of the phone-numbers response: document and error -/
  decodeNumbers : IncomingPhoneNumbersResponse × Option GoError
  /-- The call `client.Get(url)` -/
  clientGet : GoString → Option GoError
  /-- Decoding the body of the tunnels response: document and error -/
  decodeTunnels : TunnelsResponse × Option GoError
  /-- The call `client.PostForm(url, values)` -/
  clientPostForm : GoString → List (GoString × List GoString) → Option GoError

/-- The steps of the orchestrator, one per function `main` calls. -/
inductive Step where
  | runServer
  | runNgrokServer
  | promptAccountSid
  | promptAuthToken
  | getNumbers
  | promptNumberSelection
  | fetchNgrokUrl
  | updateNumberCallback
  deriving DecidableEq

/-- What the main sequence does that is visible from outside. -/
inductive Event where
  /-- The function of a step is called by `main` -/
  | call (s : Step)
  /-- Text written to standard output -/
  | stdout (text : GoString)
  /-- The call `os.Exit(code)` -/
  | exit (code : Int)
  /-- The final `for { time.Sleep(1 * time.Second) }` is entered -/
  | idle
  deriving DecidableEq

/-! ## The functions of `main.go` -/

/-- The error of `fetchNgrokUrl` when no tunnel matches:
`errors.New("couldn't find the correct Public URL")`. -/
def noTunnelError : GoError := "couldn't find the correct Public URL".toList

/-- The error of `promptNumberSelection` when the selection is not in the
list: `errors.New("failed to select number")`. -/
def selectError : GoError := "failed to select number".toList

/-- The prompt `promptAccountSid` builds. -/
def accountSidPrompt : Prompt :=
  { Label := "Account SID".toList, Validate := accountSidValidate, Mask := none }

/-- The function `promptAccountSid`. -/
def promptAccountSid (w : World) : GoString × Option GoError :=
  let (result, err) := w.promptRun accountSidPrompt
  (TrimSpace result, err)

/-- The prompt `promptAuthToken` builds. -/
def authTokenPrompt : Prompt :=
  { Label := "Auth Token".toList, Validate := authTokenValidate, Mask := some '*' }

/-- The function `promptAuthToken`. -/
def promptAuthToken (w : World) : GoString × Option GoError :=
  let (result, err) := w.promptRun authTokenPrompt
  (TrimSpace result, err)

/-- The second loop of `promptNumberSelection`: the first entry whose display
number is the selected item. -/
def selectLookup (result : GoString) :
    List (GoString × GoString) → (GoString × GoString) × Option GoError
  | [] => (([], []), some selectError)
  | number :: rest =>
    if number.1 == result then (number, none) else selectLookup result rest

/-- The selection `promptNumberSelection` builds: the first loop collects the
display numbers. -/
def numberSelect (numbersData : List (GoString × GoString)) : Select :=
  let numbers := numbersData.foldl (fun numbers number => numbers ++ [number.1]) []
  { Label := "Select Number".toList, Items := numbers }

/-- The function `promptNumberSelection`. -/
def promptNumberSelection (w : World) (numbersData : List (GoString × GoString)) :
    (GoString × GoString) × Option GoError :=
  let (_, result, err) := w.selectRun (numberSelect numbersData)
  match err with
  | some e => (([], []), some e)
  | none => selectLookup result numbersData

/-- The function `runServer`: the port of the listener (serving starts in the background). -/
def runServer (w : World) : Int × Option GoError :=
  let (port, err) := w.listen
  match err with
  | some e => (0, some e)
  | none => (port, none)

/-- The URL `updateNumberCallback` posts to. -/
def updateUrl (accountSid authToken sid : GoString) : GoString :=
  "https://".toList ++ accountSid ++ ":".toList ++ authToken ++
    "@api.twilio.com/2010-04-01/Accounts/".toList ++ accountSid ++
    "/IncomingPhoneNumbers/".toList ++ sid ++ ".json".toList

/-- The form `updateNumberCallback` posts. -/
def updateForm (sid callbackUrl : GoString) : List (GoString × List GoString) :=
  [("Sid".toList, [sid]), ("SmsMethod".toList, ["POST".toList]),
    ("SmsUrl".toList, [callbackUrl])]

/-- The function `updateNumberCallback`: what it prints and the error it
returns. -/
def updateNumberCallback (w : World) (accountSid authToken sid callbackUrl : GoString) :
    List Event × Option GoError :=
  let err := w.clientPostForm (updateUrl accountSid authToken sid) (updateForm sid callbackUrl)
  match err with
  | some e => ([.stdout ("Failed configuring the callback ".toList ++ e ++ "\n".toList)], some e)
  | none => ([], none)

/-- The filter loop of `getNumbers`. -/
def capableNumbers (numbers : List IncomingPhoneNumber) : List (GoString × GoString) :=
  numbers.foldl
    (fun capable number =>
      if number.Capabilities.Sms && number.Status == "in-use".toList then
        capable ++ [(number.PhoneNumber, number.Sid)]
      else capable)
    []

/-- The URL `getNumbers` requests. -/
def numbersUrl (accountSid : GoString) : GoString :=
  "https://api.twilio.com/2010-04-01/Accounts/".toList ++ accountSid ++
    "/IncomingPhoneNumbers.json".toList

/-- The function `getNumbers`. -/
def getNumbers (w : World) (accountSid authToken : GoString) :
    List (GoString × GoString) × Option GoError :=
  let url := numbersUrl accountSid
  match w.newRequest url with
  | some e => ([], some e)
  | none =>
    match w.clientDo url accountSid authToken with
    | some e => ([], some e)
    | none =>
      let (phoneNumbersResponse, err) := w.decodeNumbers
      match err with
      | some e => ([], some e)
      | none => (capableNumbers phoneNumbersResponse.IncomingPhoneNumbers, none)

/-- The function `runNgrokServer`: the error of starting `ngrok http <port>` (the signal
handler it installs runs beside the main sequence). -/
def runNgrokServer (w : World) (portNum : Int) : Option GoError :=
  let port := Itoa portNum
  w.cmdStart "ngrok".toList ["http".toList, port]

/-- The loop of `fetchNgrokUrl`: the public URL of the first tunnel with proto
`https` whose address ends with `:` and the port. -/
def tunnelLookup (port : GoString) : List Tunnel → GoString × Option GoError
  | [] => ([], some noTunnelError)
  | tunnel :: rest =>
    if tunnel.Proto == "https".toList && HasSuffix tunnel.Config.Addr (":".toList ++ port) then
      (tunnel.PublicURL, none)
    else tunnelLookup port rest

/-- The URL `fetchNgrokUrl` requests. -/
def tunnelsUrl : GoString := "http://127.0.0.1:4040/api/tunnels".toList

/-- The function `fetchNgrokUrl`: what it prints, the URL and the error it
returns. -/
def fetchNgrokUrl (w : World) (portNum : Int) : List Event × GoString × Option GoError :=
  let port := Itoa portNum
  match w.clientGet tunnelsUrl with
  | some e => ([.stdout "Failed to get tunnels\n".toList], [], some e)
  | none =>
    let (tunnelsResponse, err) := w.decodeTunnels
    match err with
    | some e => ([.stdout "Failed to decode tunnels\n".toList], [], some e)
    | none => ([], tunnelLookup port tunnelsResponse.Tunnels)

/-- A fatal failure in `main`: `fmt.Printf(msg + " %v\n", err)` then `os.Exit(1)`. -/
def fatal (msg : String) (err : GoError) : List Event :=
  [.stdout (msg.toList ++ " ".toList ++ err ++ "\n".toList), .exit 1]

/-- The action of the command (`app.Action` in `main`): the trace of the main
sequence. -/
def mainAction (w : World) : List Event :=
  .call .runServer ::
  match runServer w with
  | (_, some err) => fatal "Unable to run server" err
  | (port, none) =>
  .call .runNgrokServer ::
  match runNgrokServer w port with
  | some err => fatal "Unable to run ngrok" err
  | none =>
  .call .promptAccountSid ::
  match promptAccountSid w with
  | (_, some err) => fatal "Failed to read Account SID" err
  | (accountSid, none) =>
  .call .promptAuthToken ::
  match promptAuthToken w with
  | (_, some err) => fatal "Failed to read Auth Token" err
  | (authToken, none) =>
  .call .getNumbers ::
  match getNumbers w accountSid authToken with
  | (_, some err) => fatal "Failed to fetch numbers. Check your credentials." err
  | (numbersData, none) =>
  .call .promptNumberSelection ::
  match promptNumberSelection w numbersData with
  | (_, some err) => fatal "Failed to select Number" err
  | (selectedNumber, none) =>
  .call .fetchNgrokUrl ::
  match fetchNgrokUrl w port with
  | (out, _, some err) => out ++ fatal "Couldn't start ngrok" err
  | (out, ngrokUrl, none) =>
  out ++ .call .updateNumberCallback ::
  match updateNumberCallback w accountSid authToken selectedNumber.2 ngrokUrl with
  | (out', some err) => out' ++ fatal "Couldn't set callback URL" err
  | (out', none) => out' ++ [.stdout "\n".toList, .idle]

/-- The steps in the order `main` calls them. -/
def stepOrder : List Step :=
  [.runServer, .runNgrokServer, .promptAccountSid, .promptAuthToken, .getNumbers,
    .promptNumberSelection, .fetchNgrokUrl, .updateNumberCallback]

/-- The steps a trace attempts, in the order of the trace. -/
def attempted (trace : List Event) : List Step :=
  trace.filterMap (fun e => match e with
    | .call s => some s
    | _ => none)

/-- The steps that come before a step in `stepOrder`. -/
def earlierSteps (s : Step) : List Step :=
  stepOrder.takeWhile (fun s' => decide (s' ≠ s))

/-- The error with which a step ends in a world, when it is called with the
results of the steps before it (`none`: the step succeeds). -/
def stepError (w : World) : Step → Option GoError
  | .runServer => (runServer w).2
  | .runNgrokServer => runNgrokServer w (runServer w).1
  | .promptAccountSid => (promptAccountSid w).2
  | .promptAuthToken => (promptAuthToken w).2
  | .getNumbers => (getNumbers w (promptAccountSid w).1 (promptAuthToken w).1).2
  | .promptNumberSelection =>
    (promptNumberSelection w
      (getNumbers w (promptAccountSid w).1 (promptAuthToken w).1).1).2
  | .fetchNgrokUrl => (fetchNgrokUrl w (runServer w).1).2.2
  | .updateNumberCallback =>
    (updateNumberCallback w (promptAccountSid w).1 (promptAuthToken w).1
      (promptNumberSelection w
        (getNumbers w (promptAccountSid w).1 (promptAuthToken w).1).1).1.2
      (fetchNgrokUrl w (runServer w).1).2.1).2

/-- A world in which every call succeeds: the listener is bound to port 9000,
the prompts return nothing and the services list nothing. -/
def calmWorld : World :=
  { listen := (9000, none), cmdStart := fun _ _ => none,
    promptRun := fun _ => ([], none), selectRun := fun _ => (0, [], none),
    newRequest := fun _ => none, clientDo := fun _ _ _ => none,
    decodeNumbers := (⟨[]⟩, none), clientGet := fun _ => none,
    decodeTunnels := (⟨[]⟩, none), clientPostForm := fun _ _ => none }

/-- An entry of the phone-numbers response that `getNumbers` keeps: the SMS
flag is set and the status is `in-use`. -/
def IsCapable (number : IncomingPhoneNumber) : Prop :=
  number.Capabilities.Sms = true ∧ number.Status = "in-use".toList

/-- A tunnel `fetchNgrokUrl` looks for: the proto is `https` and the address
ends with `:` followed by the decimal rendering of the port. -/
def IsTunnelFor (portNum : Int) (tunnel : Tunnel) : Prop :=
  tunnel.Proto = "https".toList ∧ (":".toList ++ Itoa portNum) <:+ tunnel.Config.Addr

instance (number : IncomingPhoneNumber) : Decidable (IsCapable number) := by
  unfold IsCapable
  infer_instance

instance (portNum : Int) (tunnel : Tunnel) : Decidable (IsTunnelFor portNum tunnel) := by
  unfold IsTunnelFor
  infer_instance

/-- The phone-numbers response `+1A` (SMS, in use), `+1B` (no SMS, in use),
`+1C` (SMS, closed). -/
def exampleNumbers : IncomingPhoneNumbersResponse :=
  ⟨[{ Sid := "PN1".toList, PhoneNumber := "+1A".toList, Capabilities := ⟨true⟩,
      Status := "in-use".toList },
    { Sid := "PN2".toList, PhoneNumber := "+1B".toList, Capabilities := ⟨false⟩,
      Status := "in-use".toList },
    { Sid := "PN3".toList, PhoneNumber := "+1C".toList, Capabilities := ⟨true⟩,
      Status := "closed".toList }]⟩

/-- The tunnels response `http` on `:9000`, `https` on `x:9000`, `https` on
`y:9001`. -/
def exampleTunnels : TunnelsResponse :=
  ⟨[{ PublicURL := "http://a.ngrok.io".toList, Config := ⟨":9000".toList⟩,
      Proto := "http".toList },
    { PublicURL := "https://b.ngrok.io".toList, Config := ⟨"x:9000".toList⟩,
      Proto := "https".toList },
    { PublicURL := "https://c.ngrok.io".toList, Config := ⟨"y:9001".toList⟩,
      Proto := "https".toList }]⟩

/-- A world in which every call succeeds, the provider answers with
`exampleNumbers`, the operator enters padded credentials and selects `+1A`,
and the tunnel daemon answers with `exampleTunnels`. -/
def exampleWorld : World :=
  { calmWorld with
    promptRun := fun p =>
      if p.Mask.isSome then ("\t0123456789abcdef0123456789abcdef  ".toList, none)
      else (" AC0123456789abcdef0123456789abcdef\n".toList, none)
    decodeNumbers := (exampleNumbers, none)
    selectRun := fun _ => (0, "+1A".toList, none)
    decodeTunnels := (exampleTunnels, none) }

/-- The world of `exampleWorld` in which the tunnel daemon lists no tunnel. -/
def noTunnelWorld : World :=
  { exampleWorld with decodeTunnels := (⟨[]⟩, none) }

/-! ## The callback listener

The body of an HTTP request is a sequence of bytes and percent-decoding
produces arbitrary bytes, so in this part a Go `string` is the list of its
bytes (`ByteString`). -/

/-- A Go `string`, as the sequence of its bytes. -/
abbrev ByteString := List UInt8

/-- The bytes (UTF-8) of a text. -/
def utf8 (s : GoString) : ByteString := s.flatMap String.utf8EncodeChar

/-- The errors `ParseForm` can return. -/
inductive FormError where
  /-- The error `url.EscapeError`: a `%` not followed by two hexadecimal digits -/
  | escape (s : ByteString)
  /-- The error "invalid semicolon separator in query" -/
  | semicolon
  /-- The error "number of URL query parameters exceeded limit" -/
  | tooManyParams
  /-- The error "http: POST too large" -/
  | postTooLarge
  /-- An error of `mime.ParseMediaType` or of reading the body -/
  | other (msg : GoError)
  deriving DecidableEq

/-- The type `url.Values`: for each key, the list of its values. -/
abbrev Values := List (ByteString × List ByteString)

/-- The values stored under a key (`v[key]`). -/
def Values.lookup (v : Values) (key : ByteString) : List ByteString :=
  match v.find? (fun p => p.1 == key) with
  | some p => p.2
  | none => []

/-- The update `v[key] = append(v[key], vs...)`. -/
def Values.add (v : Values) (key : ByteString) (vs : List ByteString) : Values :=
  if v.any (fun p => p.1 == key) then
    v.map (fun p => if p.1 == key then (p.1, p.2 ++ vs) else p)
  else v ++ [(key, vs)]

/-- The method `Values.Get`: the first value of the key, or the empty string. -/
def Values.Get (v : Values) (key : ByteString) : ByteString :=
  match v.lookup key with
  | [] => []
  | x :: _ => x

/-- The function `copyValues(dst, src)` of `net/http`. -/
def copyValues (dst src : Values) : Values :=
  src.foldl (fun dst p => dst.add p.1 p.2) dst

/-- The function `ishex` of `net/url`. -/
def ishex (c : UInt8) : Bool :=
  (decide (0x30 ≤ c) && decide (c ≤ 0x39)) || (decide (0x61 ≤ c) && decide (c ≤ 0x66)) ||
    (decide (0x41 ≤ c) && decide (c ≤ 0x46))

/-- The function `unhex` of `net/url`. -/
def unhex (c : UInt8) : UInt8 :=
  if decide (0x30 ≤ c) && decide (c ≤ 0x39) then c - 0x30
  else if decide (0x61 ≤ c) && decide (c ≤ 0x66) then c - 0x61 + 10
  else if decide (0x41 ≤ c) && decide (c ≤ 0x46) then c - 0x41 + 10
  else 0

/-- The first pass of `unescape` of `net/url` in query-component mode: the
error for the first `%` that two hexadecimal digits do not follow. -/
def unescapeCheck : ByteString → Option FormError
  | [] => none
  | c :: rest =>
    if c == 0x25 then
      match rest with
      | a :: b :: rest' =>
        if ishex a && ishex b then unescapeCheck rest' else some (.escape [c, a, b])
      | _ => some (.escape (c :: rest))
    else unescapeCheck rest

/-- The second pass of `unescape` in query-component mode: `%XX` becomes the
byte `XX` and `+` a space. -/
def unescapeBytes : ByteString → ByteString
  | [] => []
  | c :: rest =>
    if c == 0x25 then
      match rest with
      | a :: b :: rest' => (unhex a <<< 4 ||| unhex b) :: unescapeBytes rest'
      | _ => []
    else if c == 0x2B then 0x20 :: unescapeBytes rest
    else c :: unescapeBytes rest

/-- The function `url.QueryUnescape`. -/
def QueryUnescape (s : ByteString) : ByteString × Option FormError :=
  match unescapeCheck s with
  | some e => ([], some e)
  | none => (unescapeBytes s, none)

/-- The function `strings.Cut(s, sep)` for a one-byte separator: the text before the first
separator and the text after it. -/
def cut (sep : UInt8) : ByteString → ByteString × ByteString
  | [] => ([], [])
  | c :: rest =>
    if c == sep then ([], rest) else ((cut sep rest).1.cons c, (cut sep rest).2)

/-- The loop of `parseQuery` of `net/url` (a `;` in a pair is an error); every
iteration consumes input, so the length of the query is enough fuel. -/
def parseQueryLoop : Nat → ByteString → Values → Option FormError → Values × Option FormError
  | 0, _, m, err => (m, err)
  | fuel + 1, query, m, err =>
    if query.isEmpty then (m, err)
    else
      let (key, query) := cut 0x26 query
      if key.contains 0x3B then parseQueryLoop fuel query m (some .semicolon)
      else if key.isEmpty then parseQueryLoop fuel query m err
      else
        let (key, value) := cut 0x3D key
        match QueryUnescape key with
        | (_, some err1) => parseQueryLoop fuel query m (if err.isNone then some err1 else err)
        | (key, none) =>
          match QueryUnescape value with
          | (_, some err1) => parseQueryLoop fuel query m (if err.isNone then some err1 else err)
          | (value, none) => parseQueryLoop fuel query (m.add key [value]) err

/-- The default limit of `net/url` on the number of parameters of a query (the
setting `urlmaxqueryparams` left unset). -/
def maxQueryParams : Nat := 10000

/-- The function `url.ParseQuery`: `parseQuery` into an empty map. A query with
more parameters than the limit, counted as `strings.Count(query, "&") + 1`, is
refused before the loop. -/
def ParseQuery (query : ByteString) : Values × Option FormError :=
  if query.count 0x26 + 1 > maxQueryParams then ([], some .tooManyParams)
  else parseQueryLoop query.length query [] none

/-- What `ParseForm` reads of an `http.Request` the server hands to a handler. -/
structure Request where
  Method : ByteString
  /-- The field `r.URL.RawQuery` -/
  RawQuery : ByteString
  /-- The outcome of `mime.ParseMediaType` on the `Content-Type` header
  (`application/octet-stream` when the header is empty) -/
  mediaType : ByteString × Option GoError
  /-- The outcome of reading the body: bytes and error -/
  body : ByteString × Option GoError

/-- The limit on the size of a form body: 10 MB. -/
def maxFormSize : Nat := 10 * 2 ^ 20

/-- The function `parsePostForm` of `net/http`; `none` is the `nil` map. -/
def parsePostForm (r : Request) : Option Values × Option FormError :=
  let (ct, err) := r.mediaType
  let err : Option FormError := err.map .other
  if ct == utf8 "application/x-www-form-urlencoded".toList then
    match r.body with
    | (_, some e) => (none, if err.isNone then some (.other e) else err)
    | (b, none) =>
      if b.length > maxFormSize then (none, some .postTooLarge)
      else
        let (vs, e) := ParseQuery b
        (some vs, if err.isNone then e else err)
  else (none, err)

/-- The method `(*Request).ParseForm` on a request not yet parsed: the form it stores in
`r.Form` and the error it returns. -/
def ParseForm (r : Request) : Values × Option FormError :=
  let (postForm, err) :=
    if r.Method == utf8 "POST".toList || r.Method == utf8 "PUT".toList ||
        r.Method == utf8 "PATCH".toList then
      parsePostForm r
    else (none, none)
  let postForm : Values := postForm.getD []
  let form : Values := copyValues [] postForm
  let (newValues, e) := ParseQuery r.RawQuery
  let err := if err.isNone then e else err
  (copyValues form newValues, err)

/-- What the listener goroutine does that is visible from outside. -/
inductive Effect where
  /-- A write to standard output -/
  | write (text : ByteString)
  /-- The call `os.Exit(code)`: the process ends -/
  | exit (code : Int)
  /-- An unrecovered panic with the given error: the process ends -/
  | panic (err : GoError)
  deriving DecidableEq

/-- Whether an effect ends the process. -/
def Effect.ends : Effect → Bool
  | .write _ => false
  | .exit _ => true
  | .panic _ => true

/-- The notice `handleCallback` prints when the form cannot be parsed:
`fmt.Println("Received a message but couldn't parse body")`. -/
def parseFailureLine : ByteString :=
  utf8 "Received a message but couldn't parse body".toList ++ utf8 "\n".toList

/-- The function `handleCallback`: its effects, in order. -/
def handleCallback (r : Request) : List Effect :=
  let (form, err) := ParseForm r
  match err with
  | some _ => [.write parseFailureLine]
  | none =>
    [.write (form.Get (utf8 "From".toList) ++ utf8 " ".toList ++
      form.Get (utf8 "Body".toList) ++ utf8 "\n".toList)]

/-- What happens in the goroutine `runServer` starts, seen from `http.Serve`. -/
inductive Arrival where
  /-- A request that `http.Serve` hands to `handleCallback`, the handler
  registered for the pattern `/` -/
  | request (r : Request)
  /-- A request the server answers by itself, without calling the handler (a
  redirect to the clean path, a malformed request) -/
  | answered
  /-- Accepting connections fails and `http.Serve` returns the error -/
  | serveError (err : GoError)

/-- The effects of a handler call up to the first one that ends the process. -/
def untilEnd : List Effect → List Effect
  | [] => []
  | e :: rest => if e.ends then [e] else e :: untilEnd rest

/-- The goroutine `runServer` starts,
`http.HandleFunc("/", handleCallback); panic(http.Serve(listener, nil))`:
each request is handled in turn (every handler call makes a single write, so
concurrent calls are observed in some order); the goroutine goes on until a
handler ends the process or `http.Serve` returns, which makes it panic. -/
def listenerGoroutine : List Arrival → List Effect
  | [] => []
  | .serveError err :: _ => [.panic err]
  | .answered :: rest => listenerGoroutine rest
  | .request r :: rest =>
    if (handleCallback r).any Effect.ends then untilEnd (handleCallback r)
    else handleCallback r ++ listenerGoroutine rest

/-- The bytes a list of effects writes to standard output. -/
def written (effects : List Effect) : ByteString :=
  effects.flatMap (fun e => match e with
    | .write text => text
    | _ => [])

/-- The lines of a text: the parts ended by a line feed, and after them what
is left without one, if anything. -/
def splitLines : ByteString → List ByteString
  | [] => []
  | c :: rest =>
    if c == 0x0A then [] :: splitLines rest
    else
      match splitLines rest with
      | [] => [[c]]
      | line :: lines => (c :: line) :: lines

/-- The lines a list of effects puts on the console. -/
def consoleLines (effects : List Effect) : List ByteString :=
  splitLines (written effects)

/-- A `POST` request with the given form-encoded body. -/
def formPost (body : ByteString) : Request :=
  { Method := utf8 "POST".toList, RawQuery := [],
    mediaType := (utf8 "application/x-www-form-urlencoded".toList, none),
    body := (body, none) }

/-- The byte a byte of a form value without `%` decodes to: a `+` is a space. -/
def plusToSpace (c : UInt8) : UInt8 := if c == 0x2B then 0x20 else c

/-- A form value written without escapes: no `&`, no `;` and no `%`. -/
def IsPlain (v : ByteString) : Prop := 0x26 ∉ v ∧ 0x3B ∉ v ∧ 0x25 ∉ v

/-! ## Lemmas on trimming -/

theorem isSpace_of_perlSpace {c : Char} (h : IsPerlSpace c) : isSpace c = true := by
  rcases h with rfl | rfl | rfl | rfl | rfl <;> decide

theorem not_space_of_lowerHex {c : Char} (h : IsLowerHex c) :
    isSpace c = false ∧ ¬ IsPerlSpace c := by
  have hb : (48 ≤ c.toNat ∧ c.toNat ≤ 57) ∨ (97 ≤ c.toNat ∧ c.toNat ≤ 102) := h
  constructor
  · have hle : c.toNat ≤ 0xFF := by omega
    simp only [isSpace, hle, if_true, Bool.or_eq_false_iff, beq_eq_false_iff_ne, ne_eq]
    omega
  · intro hs
    have := isSpace_of_perlSpace hs
    rcases hs with rfl | rfl | rfl | rfl | rfl <;> revert hb <;> decide

theorem dropWhile_append_of_all {p : Char → Bool} (pre l : GoString)
    (h : ∀ c ∈ pre, p c = true) : (pre ++ l).dropWhile p = l.dropWhile p := by
  induction pre with
  | nil => rfl
  | cons x xs ih =>
    have hx : p x = true := h x (List.mem_cons_self _ _)
    simp only [List.cons_append, List.dropWhile_cons, hx, if_true]
    exact ih (fun c hc => h c (List.mem_cons_of_mem _ hc))

theorem dropWhile_body_append {p : Char → Bool} (body post : GoString)
    (hbody : ∀ c ∈ body, p c = false) (hpost : ∀ c ∈ post, p c = true) :
    (body ++ post).dropWhile p = if body.isEmpty then [] else body ++ post := by
  cases body with
  | nil =>
    have := dropWhile_append_of_all (p := p) post [] hpost
    simpa using this
  | cons x xs =>
    have hx : p x = false := hbody x (List.mem_cons_self _ _)
    simp [List.dropWhile_cons, hx]

theorem trimSpace_padded (pre body post : GoString)
    (hpre : ∀ c ∈ pre, isSpace c = true) (hbody : ∀ c ∈ body, isSpace c = false)
    (hpost : ∀ c ∈ post, isSpace c = true) :
    TrimSpace (pre ++ (body ++ post)) = body := by
  unfold TrimSpace
  rw [dropWhile_append_of_all pre _ hpre, dropWhile_body_append body post hbody hpost]
  cases hb : body with
  | nil => simp
  | cons x xs =>
    simp only [List.isEmpty_cons, Bool.false_eq_true, if_false]
    rw [← hb, List.reverse_append,
      dropWhile_append_of_all post.reverse _ (fun c hc => hpost c (List.mem_reverse.mp hc))]
    have hrev := dropWhile_body_append (p := isSpace) body.reverse []
      (fun c hc => hbody c (List.mem_reverse.mp hc)) (by simp)
    rw [List.append_nil] at hrev
    rw [hrev, hb]
    simp

/-! ## Lemmas on matching -/

theorem mem_stepClass {p : Char → Bool} {b : Bool} {l : GoString} {st : Pos} :
    st ∈ stepClass p (b, l) ↔ ∃ c, l = c :: st.2 ∧ p c = true ∧ st.1 = false := by
  obtain ⟨b', r⟩ := st
  cases l with
  | nil => simp [stepClass]
  | cons x xs =>
    cases hp : p x with
    | true =>
      simp only [stepClass, hp, if_true, List.mem_singleton, Prod.mk.injEq, List.cons.injEq]
      constructor
      · rintro ⟨rfl, rfl⟩
        exact ⟨x, ⟨rfl, rfl⟩, hp, rfl⟩
      · rintro ⟨c, ⟨_, hc⟩, _, h1⟩
        exact ⟨h1, hc.symm⟩
    | false =>
      simp only [stepClass, hp, List.cons.injEq]
      constructor
      · intro h
        simp at h
      · rintro ⟨c, ⟨hc, _⟩, hpc, _⟩
        rw [← hc, hp] at hpc
        cases hpc

theorem mem_iterN_stepClass (p : Char → Bool) :
    ∀ (n : Nat) (b : Bool) (l : GoString) (st : Pos),
      st ∈ iterN (stepClass p) n (b, l) ↔
        ∃ pre : GoString, pre.length = n ∧ (∀ c ∈ pre, p c = true) ∧ l = pre ++ st.2 ∧
          st.1 = (b && pre.isEmpty) := by
  intro n
  induction n with
  | zero =>
    intro b l st
    simp only [iterN, List.mem_singleton]
    constructor
    · rintro rfl
      exact ⟨[], rfl, by simp, rfl, by simp⟩
    · rintro ⟨pre, hlen, _, hl, h1⟩
      have : pre = [] := List.length_eq_zero.mp hlen
      subst this
      obtain ⟨b', r⟩ := st
      simp at hl h1
      rw [hl, h1]
  | succ n ih =>
    intro b l st
    simp only [iterN, List.mem_flatMap]
    constructor
    · rintro ⟨⟨mb, ml⟩, hmid, hst⟩
      obtain ⟨c, hc, hpc, _⟩ := mem_stepClass.mp hmid
      obtain ⟨pre, hlen, hall, hl, _⟩ := (ih mb ml st).mp hst
      refine ⟨c :: pre, by simp [hlen], ?_, ?_, ?_⟩
      · intro x hx
        rcases List.mem_cons.mp hx with rfl | hx
        · exact hpc
        · exact hall x hx
      · simp only at hc
        rw [hc, hl]; rfl
      · obtain ⟨c', hc', _, h1'⟩ := mem_stepClass.mp hmid
        obtain ⟨pre', _, _, _, h2⟩ := (ih mb ml st).mp hst
        simp only at h1'
        rw [h2, h1']; simp
    · rintro ⟨pre, hlen, hall, hl, h1⟩
      cases pre with
      | nil => simp at hlen
      | cons c pre =>
        refine ⟨(false, pre ++ st.2), ?_, ?_⟩
        · exact mem_stepClass.mpr ⟨c, by simpa using hl, hall c (List.mem_cons_self _ _), rfl⟩
        · refine (ih false (pre ++ st.2) st).mpr ⟨pre, by simpa using hlen, ?_, rfl, ?_⟩
          · intro x hx
            exact hall x (List.mem_cons_of_mem _ hx)
          · simpa using h1

theorem mem_iterStar_stepClass (p : Char → Bool) :
    ∀ (fuel : Nat) (b : Bool) (l : GoString) (st : Pos), l.length ≤ fuel →
      (st ∈ iterStar (stepClass p) fuel (b, l) ↔
        ∃ pre : GoString, (∀ c ∈ pre, p c = true) ∧ l = pre ++ st.2 ∧
          st.1 = (b && pre.isEmpty)) := by
  intro fuel
  induction fuel with
  | zero =>
    intro b l st hl
    have hnil : l = [] := List.length_eq_zero.mp (Nat.le_zero.mp hl)
    subst hnil
    obtain ⟨b', r⟩ := st
    simp only [iterStar, List.mem_singleton, Prod.mk.injEq]
    constructor
    · rintro ⟨rfl, rfl⟩
      exact ⟨[], by simp, rfl, by simp⟩
    · rintro ⟨pre, _, hl, h1⟩
      have hpre : pre = [] := (List.append_eq_nil.mp hl.symm).1
      have hr : r = [] := (List.append_eq_nil.mp hl.symm).2
      subst hpre
      exact ⟨by simpa using h1, hr⟩
  | succ fuel ih =>
    intro b l st hl
    simp only [iterStar, List.mem_cons, List.mem_flatMap, List.mem_filter,
      decide_eq_true_eq]
    constructor
    · rintro (rfl | ⟨⟨mb, ml⟩, ⟨hmid, hlt⟩, hst⟩)
      · exact ⟨[], by simp, rfl, by simp⟩
      · obtain ⟨c, hc, hpc, h1⟩ := mem_stepClass.mp hmid
        simp only at hc h1 hlt
        have hml : ml.length ≤ fuel := by omega
        obtain ⟨pre, hall, hl', _⟩ := (ih mb ml st hml).mp hst
        refine ⟨c :: pre, ?_, ?_, ?_⟩
        · intro x hx
          rcases List.mem_cons.mp hx with rfl | hx
          · exact hpc
          · exact hall x hx
        · rw [hc, hl']; rfl
        · obtain ⟨pre', _, _, h2⟩ := (ih mb ml st hml).mp hst
          rw [h2, h1]; simp
    · rintro ⟨pre, hall, hl', h1⟩
      cases pre with
      | nil =>
        left
        obtain ⟨b', r⟩ := st
        simp at hl' h1
        rw [hl', h1]
      | cons c pre =>
        right
        refine ⟨(false, pre ++ st.2), ⟨?_, ?_⟩, ?_⟩
        · exact mem_stepClass.mpr ⟨c, by simpa using hl', hall c (List.mem_cons_self _ _), rfl⟩
        · rw [hl']; simp
        · have hlen : (pre ++ st.2).length ≤ fuel := by
            rw [hl'] at hl
            simp only [List.cons_append, List.length_cons] at hl
            omega
          refine (ih false (pre ++ st.2) st hlen).mpr ⟨pre, ?_, rfl, ?_⟩
          · intro x hx
            exact hall x (List.mem_cons_of_mem _ hx)
          · simpa using h1

theorem accepts_cat (a b : Regexp) (st : Pos) :
    (∃ x, x ∈ (Regexp.cat a b).run st) ↔ ∃ mid, mid ∈ a.run st ∧ ∃ x, x ∈ b.run mid := by
  simp only [Regexp.run, List.mem_flatMap]
  constructor
  · rintro ⟨x, mid, h1, h2⟩
    exact ⟨mid, h1, x, h2⟩
  · rintro ⟨mid, h1, x, h2⟩
    exact ⟨x, mid, h1, h2⟩

theorem accepts_endText (b : Bool) (l : GoString) :
    (∃ x, x ∈ Regexp.endText.run (b, l)) ↔ l = [] := by
  cases l with
  | nil => simp [Regexp.run]
  | cons c cs => simp [Regexp.run]

theorem accepts_star_class (rs : List (Nat × Nat)) (X : Regexp) (hX : FlagFree X)
    (b : Bool) (l : GoString) :
    (∃ x, x ∈ (Regexp.cat (.star (.charClass rs)) X).run (b, l)) ↔
      ∃ pre post : GoString, l = pre ++ post ∧ (∀ c ∈ pre, inRanges rs c = true) ∧
        ∃ x, x ∈ X.run (false, post) := by
  rw [accepts_cat]
  constructor
  · rintro ⟨⟨mb, ml⟩, hmid, hx⟩
    simp only [Regexp.run] at hmid
    obtain ⟨pre, hall, hl, _⟩ :=
      (mem_iterStar_stepClass _ _ b l (mb, ml) (Nat.le_refl _)).mp hmid
    exact ⟨pre, ml, hl, hall, hX _ _ _ hx⟩
  · rintro ⟨pre, post, hl, hall, hx⟩
    refine ⟨(b && pre.isEmpty, post), ?_, hX _ _ _ hx⟩
    simp only [Regexp.run]
    exact (mem_iterStar_stepClass _ _ b l _ (Nat.le_refl _)).mpr ⟨pre, hall, hl, rfl⟩

theorem accepts_repeat_class (rs : List (Nat × Nat)) (n : Nat) (X : Regexp) (hX : FlagFree X)
    (b : Bool) (l : GoString) :
    (∃ x, x ∈ (Regexp.cat (.repeatN (.charClass rs) n) X).run (b, l)) ↔
      ∃ pre post : GoString, l = pre ++ post ∧ pre.length = n ∧
        (∀ c ∈ pre, inRanges rs c = true) ∧ ∃ x, x ∈ X.run (false, post) := by
  rw [accepts_cat]
  constructor
  · rintro ⟨⟨mb, ml⟩, hmid, hx⟩
    simp only [Regexp.run] at hmid
    obtain ⟨pre, hlen, hall, hl, _⟩ := (mem_iterN_stepClass _ n b l (mb, ml)).mp hmid
    exact ⟨pre, ml, hl, hlen, hall, hX _ _ _ hx⟩
  · rintro ⟨pre, post, hl, hlen, hall, hx⟩
    refine ⟨(b && pre.isEmpty, post), ?_, hX _ _ _ hx⟩
    simp only [Regexp.run]
    exact (mem_iterN_stepClass _ n b l _).mpr ⟨pre, hlen, hall, hl, rfl⟩

theorem accepts_literal (c : Char) (X : Regexp) (b : Bool) (l : GoString) :
    (∃ x, x ∈ (Regexp.cat (.literal c) X).run (b, l)) ↔
      ∃ post : GoString, l = c :: post ∧ ∃ x, x ∈ X.run (false, post) := by
  rw [accepts_cat]
  constructor
  · rintro ⟨⟨mb, ml⟩, hmid, hx⟩
    simp only [Regexp.run] at hmid
    obtain ⟨c', hc, hpc, h1⟩ := mem_stepClass.mp hmid
    simp only [beq_iff_eq] at hpc
    simp only at hc h1
    subst hpc h1
    exact ⟨ml, hc, hx⟩
  · rintro ⟨post, hl, hx⟩
    refine ⟨(false, post), ?_, hx⟩
    simp only [Regexp.run]
    exact mem_stepClass.mpr ⟨c, hl, by simp, rfl⟩

theorem flagFree_of_iff {X : Regexp} {P : GoString → Prop}
    (h : ∀ (b : Bool) (l : GoString), (∃ x, x ∈ X.run (b, l)) ↔ P l) : FlagFree X :=
  fun b b' l hx => (h b' l).mpr ((h b l).mp hx)

theorem startPositions_false (l : GoString) : ∀ st ∈ startPositions false l, st.1 = false := by
  induction l with
  | nil => simp [startPositions]
  | cons c cs ih =>
    intro st hst
    simp only [startPositions, List.mem_cons] at hst
    rcases hst with rfl | hst
    · rfl
    · exact ih st hst

theorem run_beginText_cat (X : Regexp) (st : Pos) :
    (Regexp.cat .beginText X).run st = if st.1 then X.run st else [] := by
  cases h : st.1 <;> simp [Regexp.run, h]

theorem isEmpty_eq_false_iff {α : Type} (l : List α) : (!l.isEmpty) = true ↔ ∃ x, x ∈ l := by
  cases l with
  | nil => simp
  | cons a as => simp

theorem matchString_beginText (X : Regexp) (s : GoString) :
    (Regexp.cat .beginText X).MatchString s = true ↔ ∃ x, x ∈ X.run (true, s) := by
  unfold Regexp.MatchString
  rw [List.any_eq_true]
  constructor
  · rintro ⟨st, hst, hne⟩
    rw [run_beginText_cat] at hne
    cases h1 : st.1 with
    | false => simp [h1] at hne
    | true =>
      simp only [h1, if_true] at hne
      have hst' : st = (true, s) := by
        cases s with
        | nil =>
          simpa [startPositions] using hst
        | cons c cs =>
          simp only [startPositions, List.mem_cons] at hst
          rcases hst with rfl | hst
          · rfl
          · have := startPositions_false cs st hst
            rw [h1] at this
            cases this
      subst hst'
      exact (isEmpty_eq_false_iff _).mp hne
  · intro hx
    refine ⟨(true, s), ?_, ?_⟩
    · cases s <;> simp [startPositions]
    · rw [run_beginText_cat]
      exact (isEmpty_eq_false_iff _).mpr hx

theorem inRanges_perlSpace (c : Char) :
    inRanges [(0x9, 0xa), (0xc, 0xd), (0x20, 0x20)] c = true ↔ IsPerlSpace c := by
  have key : ∀ n : Nat, c.toNat = n → c = Char.ofNat n := fun n h => by
    rw [← h, Char.ofNat_toNat]
  simp only [inRanges, List.any_cons, List.any_nil, Bool.or_false, Bool.or_eq_true,
    Bool.and_eq_true, decide_eq_true_eq, IsPerlSpace]
  constructor
  · intro h
    have h' : c.toNat = 9 ∨ c.toNat = 10 ∨ c.toNat = 12 ∨ c.toNat = 13 ∨ c.toNat = 32 := by
      omega
    rcases h' with h | h | h | h | h
    · exact Or.inl (key _ h)
    · exact Or.inr (Or.inl (key _ h))
    · exact Or.inr (Or.inr (Or.inl (key _ h)))
    · exact Or.inr (Or.inr (Or.inr (Or.inl (key _ h))))
    · exact Or.inr (Or.inr (Or.inr (Or.inr (key _ h))))
  · rintro (rfl | rfl | rfl | rfl | rfl) <;> decide

theorem inRanges_lowerHex (c : Char) :
    inRanges [(0x30, 0x39), (0x61, 0x66)] c = true ↔ IsLowerHex c := by
  have h0 : ∀ a b : Char, a ≤ b ↔ a.toNat ≤ b.toNat := fun a b => Iff.rfl
  simp only [inRanges, List.any_cons, List.any_nil, Bool.or_false, Bool.or_eq_true,
    Bool.and_eq_true, decide_eq_true_eq, IsLowerHex, h0]
  exact Iff.rfl

theorem accepts_spaces_end (b : Bool) (l : GoString) :
    (∃ x, x ∈ (Regexp.cat (.star perlSpace) .endText).run (b, l)) ↔
      ∀ c ∈ l, IsPerlSpace c := by
  have hff : FlagFree Regexp.endText := flagFree_of_iff accepts_endText
  unfold perlSpace
  rw [accepts_star_class _ _ hff]
  constructor
  · rintro ⟨pre, post, hl, hall, hx⟩
    have hpost : post = [] := (accepts_endText false post).mp hx
    subst hpost
    intro c hc
    rw [hl, List.append_nil] at hc
    exact (inRanges_perlSpace c).mp (hall c hc)
  · intro hall
    exact ⟨l, [], by simp, fun c hc => (inRanges_perlSpace c).mpr (hall c hc),
      (accepts_endText false []).mpr rfl⟩

theorem accepts_hex_spaces_end (b : Bool) (l : GoString) :
    (∃ x, x ∈ (Regexp.cat (.repeatN lowerHex 32)
        (.cat (.star perlSpace) .endText)).run (b, l)) ↔
      ∃ hex post : GoString, l = hex ++ post ∧ hex.length = 32 ∧
        (∀ c ∈ hex, IsLowerHex c) ∧ ∀ c ∈ post, IsPerlSpace c := by
  have hff : FlagFree (Regexp.cat (.star perlSpace) .endText) :=
    flagFree_of_iff accepts_spaces_end
  unfold lowerHex
  rw [accepts_repeat_class _ _ _ hff]
  constructor
  · rintro ⟨hex, post, hl, hlen, hall, hx⟩
    exact ⟨hex, post, hl, hlen, fun c hc => (inRanges_lowerHex c).mp (hall c hc),
      (accepts_spaces_end false post).mp hx⟩
  · rintro ⟨hex, post, hl, hlen, hall, hpost⟩
    exact ⟨hex, post, hl, hlen, fun c hc => (inRanges_lowerHex c).mpr (hall c hc),
      (accepts_spaces_end false post).mpr hpost⟩

theorem accountSid_match_iff (s : GoString) :
    accountSidPattern.MatchString s = true ↔ AccountSidShape s := by
  unfold accountSidPattern
  rw [matchString_beginText]
  have hff2 : FlagFree (Regexp.cat (.literal 'A') (.cat (.literal 'C')
      (.cat (.repeatN lowerHex 32) (.cat (.star perlSpace) .endText)))) :=
    flagFree_of_iff (accepts_literal 'A' _)
  unfold perlSpace at hff2 ⊢
  rw [accepts_star_class _ _ hff2]
  unfold AccountSidShape
  constructor
  · rintro ⟨pre, post, hl, hall, hx⟩
    obtain ⟨p1, hp1, hx1⟩ := (accepts_literal 'A' _ false post).mp hx
    obtain ⟨p2, hp2, hx2⟩ := (accepts_literal 'C' _ false p1).mp hx1
    obtain ⟨hex, post', hl', hlen, hhex, hpost⟩ := (accepts_hex_spaces_end false p2).mp hx2
    refine ⟨pre, hex, post', ?_, fun c hc => (inRanges_perlSpace c).mp (hall c hc), hlen,
      hhex, hpost⟩
    rw [hl, hp1, hp2, hl']
  · rintro ⟨pre, hex, post, hl, hpre, hlen, hhex, hpost⟩
    refine ⟨pre, 'A' :: 'C' :: (hex ++ post), hl,
      fun c hc => (inRanges_perlSpace c).mpr (hpre c hc), ?_⟩
    refine (accepts_literal 'A' _ false _).mpr ⟨'C' :: (hex ++ post), rfl, ?_⟩
    refine (accepts_literal 'C' _ false _).mpr ⟨hex ++ post, rfl, ?_⟩
    exact (accepts_hex_spaces_end false _).mpr ⟨hex, post, rfl, hlen, hhex, hpost⟩

theorem authToken_match_iff (s : GoString) :
    authTokenPattern.MatchString s = true ↔ AuthTokenShape s := by
  unfold authTokenPattern
  rw [matchString_beginText]
  have hff2 : FlagFree (Regexp.cat (.repeatN lowerHex 32)
      (.cat (.star perlSpace) .endText)) :=
    flagFree_of_iff accepts_hex_spaces_end
  unfold perlSpace at hff2 ⊢
  rw [accepts_star_class _ _ hff2]
  unfold AuthTokenShape
  constructor
  · rintro ⟨pre, post, hl, hall, hx⟩
    obtain ⟨hex, post', hl', hlen, hhex, hpost⟩ :=
      (accepts_hex_spaces_end false post).mp hx
    refine ⟨pre, hex, post', ?_, fun c hc => (inRanges_perlSpace c).mp (hall c hc), hlen,
      hhex, hpost⟩
    rw [hl, hl']
  · rintro ⟨pre, hex, post, hl, hpre, hlen, hhex, hpost⟩
    refine ⟨pre, hex ++ post, hl, fun c hc => (inRanges_perlSpace c).mpr (hpre c hc), ?_⟩
    exact (accepts_hex_spaces_end false _).mpr ⟨hex, post, rfl, hlen, hhex, hpost⟩

theorem accountSidValidate_shape (s : GoString) :
    accountSidValidate s = none ↔ AccountSidShape s := by
  rw [← accountSid_match_iff]
  unfold accountSidValidate
  cases accountSidPattern.MatchString s <;> simp

theorem authTokenValidate_shape (s : GoString) :
    authTokenValidate s = none ↔ AuthTokenShape s := by
  rw [← authToken_match_iff]
  unfold authTokenValidate
  cases authTokenPattern.MatchString s <;> simp

/-! ## Lemmas on the loops -/

theorem capable_foldl (numbers : List IncomingPhoneNumber) :
    ∀ acc : List (GoString × GoString),
      numbers.foldl
        (fun capable number =>
          if number.Capabilities.Sms && number.Status == "in-use".toList then
            capable ++ [(number.PhoneNumber, number.Sid)]
          else capable) acc =
      acc ++ (numbers.filter (fun n => decide (IsCapable n))).map
        (fun n => (n.PhoneNumber, n.Sid)) := by
  induction numbers with
  | nil => intro acc; simp
  | cons x xs ih =>
    intro acc
    rw [List.foldl_cons, ih]
    by_cases hx : IsCapable x
    · have hc : (x.Capabilities.Sms && x.Status == "in-use".toList) = true := by
        simp only [Bool.and_eq_true, beq_iff_eq]
        exact hx
      rw [if_pos hc, List.filter_cons, if_pos (decide_eq_true hx), List.map_cons,
        List.append_assoc]
      rfl
    · have hc : ¬ (x.Capabilities.Sms && x.Status == "in-use".toList) = true := by
        intro h
        simp only [Bool.and_eq_true, beq_iff_eq] at h
        exact hx h
      have hd : ¬ decide (IsCapable x) = true := by
        intro h
        exact hx (of_decide_eq_true h)
      rw [if_neg hc, List.filter_cons, if_neg hd]

theorem capableNumbers_eq (numbers : List IncomingPhoneNumber) :
    capableNumbers numbers =
      (numbers.filter (fun n => decide (IsCapable n))).map (fun n => (n.PhoneNumber, n.Sid)) := by
  unfold capableNumbers
  rw [capable_foldl]
  rfl

theorem hasSuffix_iff (s suffix : GoString) : HasSuffix s suffix = true ↔ suffix <:+ s := by
  unfold HasSuffix
  rw [Bool.and_eq_true, decide_eq_true_eq, beq_iff_eq]
  constructor
  · rintro ⟨_, h⟩
    exact List.suffix_iff_eq_drop.mpr h.symm
  · intro h
    exact ⟨h.length_le, (List.suffix_iff_eq_drop.mp h).symm⟩

theorem tunnel_test_iff (n : Int) (t : Tunnel) :
    (t.Proto == "https".toList && HasSuffix t.Config.Addr (":".toList ++ Itoa n)) = true ↔
      IsTunnelFor n t := by
  rw [Bool.and_eq_true, beq_iff_eq, hasSuffix_iff]
  rfl

theorem tunnelLookup_cons_pos (n : Int) (t : Tunnel) (rest : List Tunnel)
    (h : IsTunnelFor n t) : tunnelLookup (Itoa n) (t :: rest) = (t.PublicURL, none) := by
  have := (tunnel_test_iff n t).mpr h
  simp only [tunnelLookup, this, if_true]

theorem tunnelLookup_cons_neg (n : Int) (t : Tunnel) (rest : List Tunnel)
    (h : ¬ IsTunnelFor n t) :
    tunnelLookup (Itoa n) (t :: rest) = tunnelLookup (Itoa n) rest := by
  have : (t.Proto == "https".toList && HasSuffix t.Config.Addr (":".toList ++ Itoa n)) = false := by
    rw [Bool.eq_false_iff]
    exact fun hc => h ((tunnel_test_iff n t).mp hc)
  simp only [tunnelLookup, this, Bool.false_eq_true, if_false]

theorem tunnelLookup_spec (n : Int) (tunnels : List Tunnel) :
    (∃ pre t post, tunnels = pre ++ t :: post ∧ (∀ u ∈ pre, ¬ IsTunnelFor n u) ∧
        IsTunnelFor n t ∧ tunnelLookup (Itoa n) tunnels = (t.PublicURL, none)) ∨
      ((∀ u ∈ tunnels, ¬ IsTunnelFor n u) ∧
        tunnelLookup (Itoa n) tunnels = ([], some noTunnelError)) := by
  induction tunnels with
  | nil => exact Or.inr ⟨by simp, rfl⟩
  | cons t rest ih =>
    by_cases ht : IsTunnelFor n t
    · exact Or.inl ⟨[], t, rest, rfl, by simp, ht, tunnelLookup_cons_pos n t rest ht⟩
    · rw [tunnelLookup_cons_neg n t rest ht]
      rcases ih with ⟨pre, u, post, hl, hpre, hu, hres⟩ | ⟨hall, hres⟩
      · refine Or.inl ⟨t :: pre, u, post, by rw [hl]; rfl, ?_, hu, hres⟩
        intro v hv
        rcases List.mem_cons.mp hv with rfl | hv
        · exact ht
        · exact hpre v hv
      · refine Or.inr ⟨?_, hres⟩
        intro v hv
        rcases List.mem_cons.mp hv with rfl | hv
        · exact ht
        · exact hall v hv

theorem selectLookup_spec (result : GoString) (numbersData : List (GoString × GoString)) :
    (∃ pre n post, numbersData = pre ++ n :: post ∧ (∀ m ∈ pre, m.1 ≠ result) ∧
        n.1 = result ∧ selectLookup result numbersData = (n, none)) ∨
      ((∀ m ∈ numbersData, m.1 ≠ result) ∧
        selectLookup result numbersData = (([], []), some selectError)) := by
  induction numbersData with
  | nil => exact Or.inr ⟨by simp, rfl⟩
  | cons x rest ih =>
    by_cases hx : x.1 = result
    · refine Or.inl ⟨[], x, rest, rfl, by simp, hx, ?_⟩
      simp [selectLookup, hx]
    · have hstep : selectLookup result (x :: rest) = selectLookup result rest := by
        simp [selectLookup, hx]
      rw [hstep]
      rcases ih with ⟨pre, u, post, hl, hpre, hu, hres⟩ | ⟨hall, hres⟩
      · refine Or.inl ⟨x :: pre, u, post, by rw [hl]; rfl, ?_, hu, hres⟩
        intro v hv
        rcases List.mem_cons.mp hv with rfl | hv
        · exact hx
        · exact hpre v hv
      · refine Or.inr ⟨?_, hres⟩
        intro v hv
        rcases List.mem_cons.mp hv with rfl | hv
        · exact hx
        · exact hall v hv

theorem items_foldl (numbersData : List (GoString × GoString)) :
    ∀ acc : List GoString,
      numbersData.foldl (fun numbers number => numbers ++ [number.1]) acc =
        acc ++ numbersData.map (fun n => n.1) := by
  induction numbersData with
  | nil => intro acc; simp
  | cons x xs ih =>
    intro acc
    rw [List.foldl_cons, ih]
    simp

theorem toDigitsCore_digits (fuel : Nat) :
    ∀ (n : Nat) (ds : List Char), (∀ c ∈ ds, c.isDigit = true) →
      ∀ c ∈ Nat.toDigitsCore 10 fuel n ds, c.isDigit = true := by
  have hdigit : ∀ d, d < 10 → (Nat.digitChar d).isDigit = true := by decide
  induction fuel with
  | zero =>
    intro n ds hds
    simpa [Nat.toDigitsCore] using hds
  | succ fuel ih =>
    intro n ds hds
    have hcons : ∀ c ∈ Nat.digitChar (n % 10) :: ds, c.isDigit = true := by
      intro c hc
      rcases List.mem_cons.mp hc with rfl | hc
      · exact hdigit _ (Nat.mod_lt _ (by decide))
      · exact hds c hc
    unfold Nat.toDigitsCore
    by_cases h0 : n / 10 = 0
    · simpa [h0] using hcons
    · simp only [h0, if_false]
      exact ih _ _ hcons

theorem itoa_digits (n : Nat) : ∀ c ∈ Itoa (n : Int), c.isDigit = true := by
  have h : Itoa (n : Int) = Nat.toDigits 10 n := by
    unfold Itoa
    have hn : ¬ ((n : Int) < 0) := by omega
    rw [if_neg hn]
    rfl
  rw [h]
  exact toDigitsCore_digits _ _ _ (by simp)

theorem append_sep_cancel {x : Char} :
    ∀ (a b p d : GoString), x ∉ p → x ∉ d → a ++ x :: p = b ++ x :: d → p = d := by
  intro a
  induction a with
  | nil =>
    intro b p d hp hd h
    cases b with
    | nil => simpa using h
    | cons y b' =>
      simp only [List.nil_append, List.cons_append, List.cons.injEq] at h
      exact absurd (h.2 ▸ List.mem_append_right b' (List.mem_cons_self x d)) hp
  | cons z a' ih =>
    intro b p d hp hd h
    cases b with
    | nil =>
      simp only [List.nil_append, List.cons_append, List.cons.injEq] at h
      exact absurd (h.2 ▸ List.mem_append_right a' (List.mem_cons_self x p)) hd
    | cons y b' =>
      simp only [List.cons_append, List.cons.injEq] at h
      exact ih b' p d hp hd h.2

/-! ## The credential validators -/

/-- C1: the account-SID validator accepts a string (returns no error) exactly
when the string is zero or more `\s` characters, then `AC`, then exactly 32
characters of `[0-9a-f]`, then zero or more `\s` characters; every other string
is rejected with the error "Invalid Account SID". Upper-case hex digits, 31 or
33 hex digits, a lower-case `ac` and inner white space are rejected. -/
theorem accountSidValidate_accepts_iff (s : GoString) :
    (accountSidValidate s = none ↔ AccountSidShape s) ∧
    (accountSidValidate s = some "Invalid Account SID".toList ↔ ¬ AccountSidShape s) ∧
    accountSidValidate "AC0123456789ABCDEF0123456789abcdef".toList =
      some "Invalid Account SID".toList ∧
    accountSidValidate "AC0123456789abcdef0123456789abcde".toList =
      some "Invalid Account SID".toList ∧
    accountSidValidate "AC0123456789abcdef0123456789abcdef0".toList =
      some "Invalid Account SID".toList ∧
    accountSidValidate "ac0123456789abcdef0123456789abcdef".toList =
      some "Invalid Account SID".toList ∧
    accountSidValidate "AC0123456789abcdef 0123456789abcdef".toList =
      some "Invalid Account SID".toList := by
  refine ⟨?_, ?_, by decide, by decide, by decide, by decide, by decide⟩
  · rw [← accountSid_match_iff]
    unfold accountSidValidate
    cases accountSidPattern.MatchString s <;> simp
  · rw [← accountSid_match_iff]
    unfold accountSidValidate
    cases accountSidPattern.MatchString s <;> simp

/-- C2: the auth-token validator accepts a string (returns no error) exactly
when the string is zero or more `\s` characters, then exactly 32 characters of
`[0-9a-f]`, then zero or more `\s` characters; every other string is rejected
with the error "Invalid Auth Token". -/
theorem authTokenValidate_accepts_iff (s : GoString) :
    (authTokenValidate s = none ↔ AuthTokenShape s) ∧
    (authTokenValidate s = some "Invalid Auth Token".toList ↔ ¬ AuthTokenShape s) := by
  refine ⟨?_, ?_⟩
  · rw [← authToken_match_iff]
    unfold authTokenValidate
    cases authTokenPattern.MatchString s <;> simp
  · rw [← authToken_match_iff]
    unfold authTokenValidate
    cases authTokenPattern.MatchString s <;> simp

/-- C9: for every string the account-SID validator accepts, its `TrimSpace`
(the value `promptAccountSid` returns) is exactly `AC` followed by 32
characters of `[0-9a-f]`, of length 34 and without white space; for every
string the auth-token validator accepts, its `TrimSpace` (the value
`promptAuthToken` returns) is exactly 32 characters of `[0-9a-f]`, without
white space. -/
theorem trimmed_credentials_exact (w : World) (s t : GoString) :
    (promptAccountSid w).1 = TrimSpace (w.promptRun accountSidPrompt).1 ∧
    (promptAuthToken w).1 = TrimSpace (w.promptRun authTokenPrompt).1 ∧
    (accountSidValidate s = none →
      ∃ hex : GoString, TrimSpace s = 'A' :: 'C' :: hex ∧ hex.length = 32 ∧
        (∀ c ∈ hex, IsLowerHex c) ∧ (TrimSpace s).length = 34 ∧
        ∀ c ∈ TrimSpace s, isSpace c = false ∧ ¬ IsPerlSpace c) ∧
    (authTokenValidate t = none →
      (TrimSpace t).length = 32 ∧ (∀ c ∈ TrimSpace t, IsLowerHex c) ∧
        ∀ c ∈ TrimSpace t, isSpace c = false ∧ ¬ IsPerlSpace c) := by
  refine ⟨rfl, rfl, ?_, ?_⟩
  · intro hs
    obtain ⟨pre, hex, post, hl, hpre, hlen, hhex, hpost⟩ :=
      (accountSidValidate_shape s).mp hs
    have hbody : ∀ c ∈ 'A' :: 'C' :: hex, isSpace c = false ∧ ¬ IsPerlSpace c := by
      intro c hc
      rcases List.mem_cons.mp hc with rfl | hc
      · exact ⟨by decide, by unfold IsPerlSpace; decide⟩
      · rcases List.mem_cons.mp hc with rfl | hc
        · exact ⟨by decide, by unfold IsPerlSpace; decide⟩
        · exact not_space_of_lowerHex (hhex c hc)
    have htrim : TrimSpace s = 'A' :: 'C' :: hex := by
      rw [hl]
      exact trimSpace_padded pre ('A' :: 'C' :: hex) post
        (fun c hc => isSpace_of_perlSpace (hpre c hc)) (fun c hc => (hbody c hc).1)
        (fun c hc => isSpace_of_perlSpace (hpost c hc))
    refine ⟨hex, htrim, hlen, hhex, ?_, ?_⟩
    · rw [htrim]
      simp [hlen]
    · rw [htrim]
      exact hbody
  · intro ht
    obtain ⟨pre, hex, post, hl, hpre, hlen, hhex, hpost⟩ :=
      (authTokenValidate_shape t).mp ht
    have htrim : TrimSpace t = hex := by
      rw [hl]
      exact trimSpace_padded pre hex post
        (fun c hc => isSpace_of_perlSpace (hpre c hc))
        (fun c hc => (not_space_of_lowerHex (hhex c hc)).1)
        (fun c hc => isSpace_of_perlSpace (hpost c hc))
    rw [htrim]
    exact ⟨hlen, hhex, fun c hc => not_space_of_lowerHex (hhex c hc)⟩

/-- The padded credentials " AC0123…ef\n" and "\t0123…ef  " are accepted and
trimmed to the bare credentials. -/
theorem trimmed_credentials_exact_witness :
    accountSidValidate " AC0123456789abcdef0123456789abcdef\n".toList = none ∧
    authTokenValidate "\t0123456789abcdef0123456789abcdef  ".toList = none ∧
    TrimSpace " AC0123456789abcdef0123456789abcdef\n".toList =
      "AC0123456789abcdef0123456789abcdef".toList ∧
    (TrimSpace " AC0123456789abcdef0123456789abcdef\n".toList).length = 34 ∧
    (TrimSpace "\t0123456789abcdef0123456789abcdef  ".toList).length = 32 :=
  ⟨by decide, by decide, by decide,
    ((trimmed_credentials_exact calmWorld
      " AC0123456789abcdef0123456789abcdef\n".toList
      "\t0123456789abcdef0123456789abcdef  ".toList).2.2.1 (by decide)).choose_spec.2.2.2.1,
    ((trimmed_credentials_exact calmWorld
      " AC0123456789abcdef0123456789abcdef\n".toList
      "\t0123456789abcdef0123456789abcdef  ".toList).2.2.2 (by decide)).1⟩

/-! ## The provider client and the tunnel inspector -/

/-- C3: when the request and the decoding succeed, `getNumbers` returns exactly
the entries of the decoded response whose SMS flag is true and whose status is
`in-use`, each as the pair (phone number, sid), in the order of the response:
nothing added, dropped or duplicated. -/
theorem getNumbers_filters_in_order (w : World) (accountSid authToken : GoString)
    (hreq : w.newRequest (numbersUrl accountSid) = none)
    (hdo : w.clientDo (numbersUrl accountSid) accountSid authToken = none)
    (hdec : w.decodeNumbers.2 = none) :
    getNumbers w accountSid authToken =
      ((w.decodeNumbers.1.IncomingPhoneNumbers.filter (fun n => decide (IsCapable n))).map
        (fun n => (n.PhoneNumber, n.Sid)), none) := by
  rcases hw : w.decodeNumbers with ⟨resp, err⟩
  rw [hw] at hdec
  simp only at hdec
  subst hdec
  simp only [getNumbers, hreq, hdo, hw, capableNumbers_eq]

/-- The response `+1A` (SMS, in use), `+1B` (no SMS), `+1C` (closed) yields
only the entry for `+1A`. -/
theorem getNumbers_filters_in_order_witness :
    exampleWorld.newRequest (numbersUrl "AC00".toList) = none ∧
    exampleWorld.clientDo (numbersUrl "AC00".toList) "AC00".toList "00".toList = none ∧
    exampleWorld.decodeNumbers.2 = none ∧
    getNumbers exampleWorld "AC00".toList "00".toList =
      ((exampleWorld.decodeNumbers.1.IncomingPhoneNumbers.filter
        (fun n => decide (IsCapable n))).map (fun n => (n.PhoneNumber, n.Sid)), none) ∧
    getNumbers exampleWorld "AC00".toList "00".toList =
      ([("+1A".toList, "PN1".toList)], none) :=
  ⟨rfl, rfl, rfl,
    getNumbers_filters_in_order exampleWorld "AC00".toList "00".toList rfl rfl rfl,
    by decide⟩

/-- C4: when the request and the decoding succeed, `fetchNgrokUrl` returns the
public URL of the first tunnel, in list order, whose proto is `https` and whose
address ends with `:` followed by the decimal rendering of the port; it fails,
and then with the error "couldn't find the correct Public URL" and the empty
URL, exactly when no tunnel of the list satisfies both conditions. -/
theorem fetchNgrokUrl_first_match (w : World) (n : Int)
    (hget : w.clientGet tunnelsUrl = none) (hdec : w.decodeTunnels.2 = none) :
    ((∃ pre t post, w.decodeTunnels.1.Tunnels = pre ++ t :: post ∧
          (∀ u ∈ pre, ¬ IsTunnelFor n u) ∧ IsTunnelFor n t ∧
          (fetchNgrokUrl w n).2 = (t.PublicURL, none)) ∨
      ((∀ u ∈ w.decodeTunnels.1.Tunnels, ¬ IsTunnelFor n u) ∧
        (fetchNgrokUrl w n).2 = ([], some noTunnelError))) ∧
    ((fetchNgrokUrl w n).2.2 = some noTunnelError ↔
      ∀ u ∈ w.decodeTunnels.1.Tunnels, ¬ IsTunnelFor n u) ∧
    ((fetchNgrokUrl w n).2.2 ≠ none ↔
      ∀ u ∈ w.decodeTunnels.1.Tunnels, ¬ IsTunnelFor n u) := by
  rcases hw : w.decodeTunnels with ⟨resp, err⟩
  rw [hw] at hdec
  simp only at hdec
  subst hdec
  have hres : (fetchNgrokUrl w n).2 = tunnelLookup (Itoa n) resp.Tunnels := by
    simp only [fetchNgrokUrl, hget, hw]
  rw [hres]
  simp only
  rcases tunnelLookup_spec n resp.Tunnels with ⟨pre, t, post, hl, hpre, ht, hr⟩ | ⟨hall, hr⟩
  · have hnot : ¬ ∀ u ∈ resp.Tunnels, ¬ IsTunnelFor n u := by
      intro hall
      exact hall t (by rw [hl]; simp) ht
    refine ⟨Or.inl ⟨pre, t, post, hl, hpre, ht, hr⟩, ?_, ?_⟩
    · rw [hr]
      simp only [reduceCtorEq, false_iff]
      exact hnot
    · rw [hr]
      simp only [ne_eq, not_true_eq_false, false_iff]
      exact hnot
  · refine ⟨Or.inr ⟨hall, hr⟩, ?_, ?_⟩
    · rw [hr]
      simp only [true_iff]
      exact hall
    · rw [hr]
      simp only [ne_eq, reduceCtorEq, not_false_eq_true, true_iff]
      exact hall

/-- For the tunnels `http` on `:9000`, `https` on `x:9000`, `https` on `y:9001`
and port 9000 the result is the public URL of the second entry. -/
theorem fetchNgrokUrl_first_match_witness :
    exampleWorld.clientGet tunnelsUrl = none ∧ exampleWorld.decodeTunnels.2 = none ∧
    (fetchNgrokUrl exampleWorld 9000).2 = ("https://b.ngrok.io".toList, none) ∧
    ((fetchNgrokUrl exampleWorld 9000).2.2 = some noTunnelError ↔
      ∀ u ∈ exampleWorld.decodeTunnels.1.Tunnels, ¬ IsTunnelFor 9000 u) :=
  ⟨rfl, rfl, by decide, (fetchNgrokUrl_first_match exampleWorld 9000 rfl rfl).2.1⟩

/-- C10: the suffix test of `fetchNgrokUrl` does not confuse two ports. For an
address `h ++ ":" ++ p` with `p` a string of decimal digits (non-empty or not)
and a non-negative port `n`, the address ends with `":" ++ Itoa n` exactly when `p`
is `Itoa n`; hence a tunnel bound to another port is passed over by the
lookup. -/
theorem port_suffix_exact (h p : GoString) (n : Nat) (hd : ∀ c ∈ p, c.isDigit = true) :
    (HasSuffix (h ++ ":".toList ++ p) (":".toList ++ Itoa (n : Int)) = true ↔
      p = Itoa (n : Int)) ∧
    (∀ (t : Tunnel) (rest : List Tunnel), t.Config.Addr = h ++ ":".toList ++ p →
      p ≠ Itoa (n : Int) →
      tunnelLookup (Itoa (n : Int)) (t :: rest) = tunnelLookup (Itoa (n : Int)) rest) := by
  have hcolon : ':'.isDigit = false := by decide
  have hp' : ':' ∉ p := by
    intro hmem
    have := hd _ hmem
    rw [hcolon] at this
    cases this
  have hn' : ':' ∉ Itoa (n : Int) := by
    intro hmem
    have := itoa_digits n _ hmem
    rw [hcolon] at this
    cases this
  have hiff : HasSuffix (h ++ ":".toList ++ p) (":".toList ++ Itoa (n : Int)) = true ↔
      p = Itoa (n : Int) := by
    rw [hasSuffix_iff]
    constructor
    · rintro ⟨pre, hpre⟩
      have heq : pre ++ ':' :: Itoa (n : Int) = h ++ ':' :: p := by
        rw [← List.append_assoc] at hpre
        simpa using hpre
      exact (append_sep_cancel pre h (Itoa (n : Int)) p hn' hp' heq).symm
    · intro heq
      rw [heq, List.append_assoc]
      exact List.suffix_append _ _
  refine ⟨hiff, ?_⟩
  intro t rest haddr hne
  apply tunnelLookup_cons_neg
  rintro ⟨_, hsuf⟩
  rw [haddr] at hsuf
  exact hne (hiff.mp ((hasSuffix_iff _ _).mpr hsuf))

/-- For the target port 9000 the addresses `localhost:19000` and
`localhost:900` do not pass the suffix test, and `localhost:9000` does. -/
theorem port_suffix_exact_witness :
    ("19000".toList ≠ [] ∧ ∀ c ∈ "19000".toList, c.isDigit = true) ∧
    (HasSuffix ("localhost".toList ++ ":".toList ++ "19000".toList)
        (":".toList ++ Itoa ((9000 : Nat) : Int)) = true ↔
      "19000".toList = Itoa ((9000 : Nat) : Int)) ∧
    HasSuffix "localhost:19000".toList (":".toList ++ Itoa 9000) = false ∧
    HasSuffix "localhost:900".toList (":".toList ++ Itoa 9000) = false ∧
    HasSuffix "localhost:9000".toList (":".toList ++ Itoa 9000) = true :=
  ⟨⟨by decide, by decide⟩,
    (port_suffix_exact "localhost".toList "19000".toList 9000 (by decide)).1,
    by decide, by decide, by decide⟩

/-! ## The number selection -/

/-- C7: in `promptNumberSelection`, when the selection prompt returns an item
that is the display number of no entry of the fetched list, the lookup fails
with the error "failed to select number" and the empty pair; when it is the
display number of some entry, the first such entry is returned without error;
a pair returned without error is an element of the fetched list; an empty
fetched list never yields a successful selection. -/
theorem promptNumberSelection_lookup (w : World) (numbersData : List (GoString × GoString)) :
    ((w.selectRun (numberSelect numbersData)).2.2 = none →
      (∀ m ∈ numbersData, m.1 ≠ (w.selectRun (numberSelect numbersData)).2.1) →
      promptNumberSelection w numbersData = (([], []), some selectError)) ∧
    ((w.selectRun (numberSelect numbersData)).2.2 = none →
      ∀ pre n post, numbersData = pre ++ n :: post →
        (∀ m ∈ pre, m.1 ≠ (w.selectRun (numberSelect numbersData)).2.1) →
        n.1 = (w.selectRun (numberSelect numbersData)).2.1 →
        promptNumberSelection w numbersData = (n, none)) ∧
    ((promptNumberSelection w numbersData).2 = none →
      (promptNumberSelection w numbersData).1 ∈ numbersData ∧
      (promptNumberSelection w numbersData).1.1 =
        (w.selectRun (numberSelect numbersData)).2.1) ∧
    (numbersData = [] → (promptNumberSelection w numbersData).2 ≠ none) ∧
    (numberSelect numbersData).Items = numbersData.map (fun n => n.1) := by
  rcases hw : w.selectRun (numberSelect numbersData) with ⟨idx, result, err⟩
  have hsel : err = none → promptNumberSelection w numbersData =
      selectLookup result numbersData := by
    intro he
    subst he
    simp only [promptNumberSelection, hw]
  have herr : ∀ e, err = some e → promptNumberSelection w numbersData = (([], []), some e) := by
    intro e he
    subst he
    simp only [promptNumberSelection, hw]
  refine ⟨?_, ?_, ?_, ?_, ?_⟩
  · intro he hall
    rw [hsel he]
    rcases selectLookup_spec result numbersData with ⟨pre, n, post, hl, _, hn, _⟩ | ⟨_, hr⟩
    · exact absurd hn (hall n (by rw [hl]; simp))
    · exact hr
  · intro he pre n post hl hpre hn
    rw [hsel he]
    rcases selectLookup_spec result numbersData with ⟨pre', n', post', hl', hpre', hn', hr⟩ | ⟨hall, _⟩
    · rw [hr]
      have hsame : pre = pre' ∧ n = n' := by
        clear hr hsel herr hw
        induction pre generalizing pre' numbersData with
        | nil =>
          cases pre' with
          | nil =>
            rw [hl] at hl'
            simp only [List.nil_append, List.cons.injEq] at hl'
            exact ⟨rfl, hl'.1⟩
          | cons y ys =>
            rw [hl] at hl'
            simp only [List.nil_append, List.cons_append, List.cons.injEq] at hl'
            exact absurd (hl'.1 ▸ hn) (hpre' y (List.mem_cons_self _ _))
        | cons x xs ih =>
          cases pre' with
          | nil =>
            rw [hl] at hl'
            simp only [List.nil_append, List.cons_append, List.cons.injEq] at hl'
            exact absurd (hl'.1 ▸ hn') (hpre x (List.mem_cons_self _ _))
          | cons y ys =>
            rw [hl] at hl'
            simp only [List.cons_append, List.cons.injEq] at hl'
            have := ih (xs ++ n :: post) rfl
              (fun m hm => hpre m (List.mem_cons_of_mem _ hm)) ys hl'.2
              (fun m hm => hpre' m (List.mem_cons_of_mem _ hm))
            exact ⟨by rw [hl'.1, this.1], this.2⟩
      rw [hsame.2]
    · exact absurd hn (hall n (by rw [hl]; simp))
  · intro hok
    cases err with
    | some e =>
      rw [herr e rfl] at hok
      cases hok
    | none =>
      rw [hsel rfl] at hok ⊢
      rcases selectLookup_spec result numbersData with ⟨pre, n, post, hl, _, hn, hr⟩ | ⟨_, hr⟩
      · rw [hr]
        exact ⟨by rw [hl]; simp, hn⟩
      · rw [hr] at hok
        cases hok
  · intro hnil
    subst hnil
    cases err with
    | some e =>
      rw [herr e rfl]
      simp
    | none =>
      rw [hsel rfl]
      simp [selectLookup]
  · unfold numberSelect
    simp only [items_foldl, List.nil_append]

/-- With the list [(+1A, PN1)]: selecting `+1A` returns that entry, selecting
`+1Z` fails with "failed to select number". -/
theorem promptNumberSelection_lookup_witness :
    (exampleWorld.selectRun (numberSelect [("+1A".toList, "PN1".toList)])).2.2 = none ∧
    promptNumberSelection exampleWorld [("+1A".toList, "PN1".toList)] =
      (("+1A".toList, "PN1".toList), none) ∧
    promptNumberSelection exampleWorld [("+1Z".toList, "PN9".toList)] =
      (([], []), some selectError) :=
  ⟨rfl,
    (promptNumberSelection_lookup exampleWorld [("+1A".toList, "PN1".toList)]).2.1 rfl
      [] ("+1A".toList, "PN1".toList) [] rfl (by simp) rfl,
    (promptNumberSelection_lookup exampleWorld [("+1Z".toList, "PN9".toList)]).1 rfl
      (by decide)⟩

/-! ## The orchestrator -/

theorem fetchNgrokUrl_out_nil (w : World) (n : Int) (h : (fetchNgrokUrl w n).2.2 = none) :
    (fetchNgrokUrl w n).1 = [] := by
  unfold fetchNgrokUrl at h ⊢
  cases hg : w.clientGet tunnelsUrl with
  | some e => simp [hg] at h
  | none =>
    rcases hd : w.decodeTunnels with ⟨resp, _ | e⟩
    · simp [hg, hd]
    · simp [hg, hd] at h

theorem updateNumberCallback_out_nil (w : World) (a t sid url : GoString)
    (h : (updateNumberCallback w a t sid url).2 = none) :
    (updateNumberCallback w a t sid url).1 = [] := by
  unfold updateNumberCallback at h ⊢
  cases hp : w.clientPostForm (updateUrl a t sid) (updateForm sid url) with
  | some e => simp [hp] at h
  | none => simp

theorem fetchNgrokUrl_out_stdout (w : World) (n : Int) :
    ∀ e ∈ (fetchNgrokUrl w n).1, ∃ text, e = Event.stdout text := by
  unfold fetchNgrokUrl
  cases hg : w.clientGet tunnelsUrl with
  | some e => simp
  | none =>
    rcases hd : w.decodeTunnels with ⟨resp, _ | e⟩ <;> simp

theorem updateNumberCallback_out_stdout (w : World) (a t sid url : GoString) :
    ∀ e ∈ (updateNumberCallback w a t sid url).1, ∃ text, e = Event.stdout text := by
  unfold updateNumberCallback
  cases hp : w.clientPostForm (updateUrl a t sid) (updateForm sid url) <;> simp

theorem mainAction_shape (w : World) :
    (∃ k e outs msg, k < 8 ∧ (∀ s ∈ stepOrder.take k, stepError w s = none) ∧
        (∃ s, stepOrder[k]? = some s ∧ stepError w s = some e) ∧
        (∀ ev ∈ outs, ∃ text, ev = Event.stdout text) ∧
        mainAction w = (stepOrder.take (k + 1)).map Event.call ++ outs ++ fatal msg e) ∨
    ((∀ s ∈ stepOrder, stepError w s = none) ∧
      mainAction w = stepOrder.map Event.call ++ [.stdout "\n".toList, .idle]) := by
  rcases h1 : runServer w with ⟨port, _ | e1⟩
  swap
  · refine Or.inl ⟨0, e1, [], "Unable to run server", by decide, by simp, ?_, by simp, ?_⟩
    · exact ⟨.runServer, rfl, by simp [stepError, h1]⟩
    · simp [mainAction, h1, stepOrder]
  rcases h2 : runNgrokServer w port with _ | e2
  swap
  · refine Or.inl ⟨1, e2, [], "Unable to run ngrok", by decide, ?_, ?_, by simp, ?_⟩
    · simp [stepOrder, stepError, h1]
    · exact ⟨.runNgrokServer, rfl, by simp [stepError, h1, h2]⟩
    · simp [mainAction, h1, h2, stepOrder]
  rcases h3 : promptAccountSid w with ⟨accountSid, _ | e3⟩
  swap
  · refine Or.inl ⟨2, e3, [], "Failed to read Account SID", by decide, ?_, ?_, by simp, ?_⟩
    · simp [stepOrder, stepError, h1, h2]
    · exact ⟨.promptAccountSid, rfl, by simp [stepError, h3]⟩
    · simp [mainAction, h1, h2, h3, stepOrder]
  rcases h4 : promptAuthToken w with ⟨authToken, _ | e4⟩
  swap
  · refine Or.inl ⟨3, e4, [], "Failed to read Auth Token", by decide, ?_, ?_, by simp, ?_⟩
    · simp [stepOrder, stepError, h1, h2, h3]
    · exact ⟨.promptAuthToken, rfl, by simp [stepError, h4]⟩
    · simp [mainAction, h1, h2, h3, h4, stepOrder]
  rcases h5 : getNumbers w accountSid authToken with ⟨numbersData, _ | e5⟩
  swap
  · refine Or.inl ⟨4, e5, [], "Failed to fetch numbers. Check your credentials.", by decide,
      ?_, ?_, by simp, ?_⟩
    · simp [stepOrder, stepError, h1, h2, h3, h4]
    · exact ⟨.getNumbers, rfl, by simp [stepError, h3, h4, h5]⟩
    · simp [mainAction, h1, h2, h3, h4, h5, stepOrder]
  rcases h6 : promptNumberSelection w numbersData with ⟨selectedNumber, _ | e6⟩
  swap
  · refine Or.inl ⟨5, e6, [], "Failed to select Number", by decide, ?_, ?_, by simp, ?_⟩
    · simp [stepOrder, stepError, h1, h2, h3, h4, h5]
    · exact ⟨.promptNumberSelection, rfl, by simp [stepError, h3, h4, h5, h6]⟩
    · simp [mainAction, h1, h2, h3, h4, h5, h6, stepOrder]
  rcases h7 : fetchNgrokUrl w port with ⟨out, ngrokUrl, _ | e7⟩
  swap
  · refine Or.inl ⟨6, e7, out, "Couldn't start ngrok", by decide, ?_, ?_, ?_, ?_⟩
    · simp [stepOrder, stepError, h1, h2, h3, h4, h5, h6]
    · exact ⟨.fetchNgrokUrl, rfl, by simp [stepError, h1, h7]⟩
    · have := fetchNgrokUrl_out_stdout w port
      rw [h7] at this
      exact this
    · simp [mainAction, h1, h2, h3, h4, h5, h6, h7, stepOrder]
  have hout : out = [] := by
    have := fetchNgrokUrl_out_nil w port (by rw [h7])
    rw [h7] at this
    exact this
  subst hout
  rcases h8 : updateNumberCallback w accountSid authToken selectedNumber.2 ngrokUrl
    with ⟨out', _ | e8⟩
  swap
  · refine Or.inl ⟨7, e8, out', "Couldn't set callback URL", by decide, ?_, ?_, ?_, ?_⟩
    · simp [stepOrder, stepError, h1, h2, h3, h4, h5, h6, h7]
    · exact ⟨.updateNumberCallback, rfl, by simp [stepError, h1, h3, h4, h5, h6, h7, h8]⟩
    · have := updateNumberCallback_out_stdout w accountSid authToken selectedNumber.2 ngrokUrl
      rw [h8] at this
      exact this
    · simp [mainAction, h1, h2, h3, h4, h5, h6, h7, h8, stepOrder]
  have hout' : out' = [] := by
    have := updateNumberCallback_out_nil w accountSid authToken selectedNumber.2 ngrokUrl
      (by rw [h8])
    rw [h8] at this
    exact this
  subst hout'
  refine Or.inr ⟨?_, ?_⟩
  · simp [stepOrder, stepError, h1, h2, h3, h4, h5, h6, h7, h8]
  · simp [mainAction, h1, h2, h3, h4, h5, h6, h7, h8, stepOrder]

theorem attempted_append (a b : List Event) :
    attempted (a ++ b) = attempted a ++ attempted b := by
  unfold attempted
  exact List.filterMap_append _ _ _

theorem attempted_calls (l : List Step) : attempted (l.map Event.call) = l := by
  induction l with
  | nil => rfl
  | cons x xs ih =>
    simp only [List.map_cons, attempted, List.filterMap_cons] at ih ⊢
    rw [ih]

theorem attempted_stdout (outs : List Event) (h : ∀ ev ∈ outs, ∃ text, ev = Event.stdout text) :
    attempted outs = [] := by
  induction outs with
  | nil => rfl
  | cons x xs ih =>
    obtain ⟨text, rfl⟩ := h _ (List.mem_cons_self _ _)
    have := ih (fun ev hev => h ev (List.mem_cons_of_mem _ hev))
    simp only [attempted, List.filterMap_cons] at this ⊢
    exact this

theorem attempted_fatal (msg : String) (e : GoError) : attempted (fatal msg e) = [] := rfl

theorem earlierSteps_eq :
    earlierSteps .runServer = [] ∧
    earlierSteps .runNgrokServer = [.runServer] ∧
    earlierSteps .promptAccountSid = [.runServer, .runNgrokServer] ∧
    earlierSteps .promptAuthToken = [.runServer, .runNgrokServer, .promptAccountSid] ∧
    earlierSteps .getNumbers =
      [.runServer, .runNgrokServer, .promptAccountSid, .promptAuthToken] ∧
    earlierSteps .promptNumberSelection =
      [.runServer, .runNgrokServer, .promptAccountSid, .promptAuthToken, .getNumbers] ∧
    earlierSteps .fetchNgrokUrl =
      [.runServer, .runNgrokServer, .promptAccountSid, .promptAuthToken, .getNumbers,
        .promptNumberSelection] ∧
    earlierSteps .updateNumberCallback =
      [.runServer, .runNgrokServer, .promptAccountSid, .promptAuthToken, .getNumbers,
        .promptNumberSelection, .fetchNgrokUrl] := by
  decide

theorem attempted_iff_earlier (w : World) (s : Step) :
    s ∈ attempted (mainAction w) ↔ ∀ s' ∈ earlierSteps s, stepError w s' = none := by
  obtain ⟨e0, e1, e2, e3, e4, e5, e6, e7⟩ := earlierSteps_eq
  rcases mainAction_shape w with ⟨k, e, outs, msg, hk, hall, ⟨s0, hs0, hfail⟩, houts, hshape⟩ |
    ⟨hall, hshape⟩
  · have hatt : attempted (mainAction w) = stepOrder.take (k + 1) := by
      rw [hshape, attempted_append, attempted_append, attempted_calls,
        attempted_stdout outs houts, attempted_fatal]
      simp
    rw [hatt]
    interval_cases k <;> simp [stepOrder] at hall hs0 <;> subst hs0 <;>
      cases s <;> simp [stepOrder, e0, e1, e2, e3, e4, e5, e6, e7, hall, hfail]
  · have hatt : attempted (mainAction w) = stepOrder := by
      rw [hshape, attempted_append, attempted_calls]
      rfl
    rw [hatt]
    simp [stepOrder] at hall
    cases s <;> simp [stepOrder, e0, e1, e2, e3, e4, e5, e6, e7, hall]

/-- C8: the orchestrator attempts its steps in the fixed order start listener,
start tunnel, prompt account SID, prompt auth token, list numbers, select
number, query tunnel URL, update callback, each at most once; a step is
attempted exactly when every earlier step succeeded; when a step fails the
trace ends with a printed line and `os.Exit(1)`, the failing step being the
last one attempted and nothing but calls and prints coming before; when no step
fails all eight steps run and the program idles. In particular the tunnel URL
is queried only after the tunnel was started, and the callback is updated only
if listing, selection and URL query succeeded. -/
theorem main_linear_sequence (w : World) :
    (∃ rest, attempted (mainAction w) ++ rest = stepOrder) ∧
    (attempted (mainAction w)).Nodup ∧
    (∀ s, s ∈ attempted (mainAction w) ↔ ∀ s' ∈ earlierSteps s, stepError w s' = none) ∧
    ((∃ s, stepError w s ≠ none) →
      ∃ pre text s, mainAction w = pre ++ [.stdout (text ++ "\n".toList), .exit 1] ∧
        (∀ ev ∈ pre, (∃ s', ev = Event.call s') ∨ ∃ t, ev = Event.stdout t) ∧
        attempted (mainAction w) = earlierSteps s ++ [s] ∧ stepError w s ≠ none) ∧
    ((∀ s, stepError w s = none) →
      mainAction w = stepOrder.map Event.call ++ [.stdout "\n".toList, .idle]) ∧
    (Step.fetchNgrokUrl ∈ attempted (mainAction w) →
      Step.runNgrokServer ∈ attempted (mainAction w) ∧
        stepError w .runNgrokServer = none) ∧
    (Step.updateNumberCallback ∈ attempted (mainAction w) →
      stepError w .getNumbers = none ∧ stepError w .promptNumberSelection = none ∧
        stepError w .fetchNgrokUrl = none) := by
  obtain ⟨e0, e1, e2, e3, e4, e5, e6, e7⟩ := earlierSteps_eq
  have hiff := attempted_iff_earlier w
  have hmem : ∀ s : Step, s ∈ stepOrder := by
    intro s
    cases s <;> simp [stepOrder]
  have hnodup : stepOrder.Nodup := by decide
  refine ⟨?_, ?_, hiff, ?_, ?_, ?_, ?_⟩
  · rcases mainAction_shape w with ⟨k, e, outs, msg, hk, hall, _, houts, hshape⟩ | ⟨_, hshape⟩
    · refine ⟨stepOrder.drop (k + 1), ?_⟩
      rw [hshape, attempted_append, attempted_append, attempted_calls,
        attempted_stdout outs houts, attempted_fatal]
      simp
    · refine ⟨[], ?_⟩
      rw [hshape, attempted_append, attempted_calls]
      rfl
  · rcases mainAction_shape w with ⟨k, e, outs, msg, hk, hall, _, houts, hshape⟩ | ⟨_, hshape⟩
    · rw [hshape, attempted_append, attempted_append, attempted_calls,
        attempted_stdout outs houts, attempted_fatal]
      simp only [List.append_nil]
      exact hnodup.sublist (List.take_sublist _ _)
    · rw [hshape, attempted_append, attempted_calls]
      simpa [attempted] using hnodup
  · rintro ⟨s, hs⟩
    rcases mainAction_shape w with
      ⟨k, e, outs, msg, hk, hall, ⟨s0, hs0, hfail⟩, houts, hshape⟩ | ⟨hall, _⟩
    · refine ⟨(stepOrder.take (k + 1)).map Event.call ++ outs, msg.toList ++ " ".toList ++ e,
        s0, ?_, ?_, ?_, ?_⟩
      · rw [hshape]
        simp [fatal]
      · intro ev hev
        rcases List.mem_append.mp hev with h | h
        · obtain ⟨s', _, rfl⟩ := List.mem_map.mp h
          exact Or.inl ⟨s', rfl⟩
        · exact Or.inr (houts ev h)
      · rw [hshape, attempted_append, attempted_append, attempted_calls,
          attempted_stdout outs houts, attempted_fatal]
        interval_cases k <;> simp [stepOrder] at hs0 <;> subst hs0 <;>
          simp [stepOrder, e0, e1, e2, e3, e4, e5, e6, e7]
      · rw [hfail]
        simp
    · exact absurd (hall s (hmem s)) hs
  · intro hok
    rcases mainAction_shape w with
      ⟨k, e, outs, msg, hk, hall, ⟨s0, hs0, hfail⟩, houts, hshape⟩ | ⟨_, hshape⟩
    · rw [hok s0] at hfail
      cases hfail
    · exact hshape
  · intro h
    have h' := (hiff .fetchNgrokUrl).mp h
    rw [e6] at h'
    refine ⟨(hiff .runNgrokServer).mpr ?_, h' _ (by simp)⟩
    rw [e1]
    intro s' hs'
    exact h' s' (by
      rcases List.mem_singleton.mp hs' with rfl
      simp)
  · intro h
    have h' := (hiff .updateNumberCallback).mp h
    rw [e7] at h'
    exact ⟨h' _ (by simp), h' _ (by simp), h' _ (by simp)⟩

/-- In `exampleWorld` every step succeeds: the eight steps run in order and the
program idles. In `noTunnelWorld` the tunnel URL query fails: the trace ends
with the error line and exit status 1, and the callback is not updated. -/
theorem main_linear_sequence_witness :
    (∀ s, stepError exampleWorld s = none) ∧
    mainAction exampleWorld = stepOrder.map Event.call ++ [.stdout "\n".toList, .idle] ∧
    stepError noTunnelWorld .fetchNgrokUrl ≠ none ∧
    mainAction noTunnelWorld =
      [.call .runServer, .call .runNgrokServer, .call .promptAccountSid,
        .call .promptAuthToken, .call .getNumbers, .call .promptNumberSelection,
        .call .fetchNgrokUrl,
        .stdout "Couldn't start ngrok couldn't find the correct Public URL\n".toList,
        .exit 1] ∧
    ∃ pre text s, mainAction noTunnelWorld = pre ++ [.stdout (text ++ "\n".toList), .exit 1] ∧
      (∀ ev ∈ pre, (∃ s', ev = Event.call s') ∨ ∃ t, ev = Event.stdout t) ∧
      attempted (mainAction noTunnelWorld) = earlierSteps s ++ [s] ∧
      stepError noTunnelWorld s ≠ none :=
  ⟨fun s => by cases s <;> decide,
    (main_linear_sequence exampleWorld).2.2.2.2.1 (fun s => by cases s <;> decide),
    by decide, by decide,
    (main_linear_sequence noTunnelWorld).2.2.2.1 ⟨.fetchNgrokUrl, by decide⟩⟩

/-! ## Lemmas on form decoding -/

theorem cut_append_sep (sep : UInt8) (a rest : ByteString) (h : sep ∉ a) :
    cut sep (a ++ sep :: rest) = (a, rest) := by
  induction a with
  | nil => simp [cut]
  | cons x xs ih =>
    have hx : (x == sep) = false := by
      rw [beq_eq_false_iff_ne]
      intro hxs
      exact h (hxs ▸ List.mem_cons_self _ _)
    have := ih (fun hm => h (List.mem_cons_of_mem _ hm))
    simp [cut, hx, this]

theorem cut_no_sep (sep : UInt8) (a : ByteString) (h : sep ∉ a) : cut sep a = (a, []) := by
  induction a with
  | nil => simp [cut]
  | cons x xs ih =>
    have hx : (x == sep) = false := by
      rw [beq_eq_false_iff_ne]
      intro hxs
      exact h (hxs ▸ List.mem_cons_self _ _)
    have := ih (fun hm => h (List.mem_cons_of_mem _ hm))
    simp [cut, hx, this]

theorem unescapeCheck_plain (v : ByteString) (h : 0x25 ∉ v) : unescapeCheck v = none := by
  induction v with
  | nil => rfl
  | cons x xs ih =>
    have hx : (x == 0x25) = false := by
      rw [beq_eq_false_iff_ne]
      intro hxs
      exact h (hxs ▸ List.mem_cons_self _ _)
    have := ih (fun hm => h (List.mem_cons_of_mem _ hm))
    unfold unescapeCheck
    simp only [hx]
    exact this

theorem unescapeBytes_plain (v : ByteString) (h : 0x25 ∉ v) :
    unescapeBytes v = v.map plusToSpace := by
  induction v with
  | nil => rfl
  | cons x xs ih =>
    have hx : (x == 0x25) = false := by
      rw [beq_eq_false_iff_ne]
      intro hxs
      exact h (hxs ▸ List.mem_cons_self _ _)
    have := ih (fun hm => h (List.mem_cons_of_mem _ hm))
    unfold unescapeBytes
    by_cases hp : (x == 0x2B) = true
    · simp [hx, hp, this, plusToSpace]
    · simp [hx, hp, this, plusToSpace]

theorem queryUnescape_plain (v : ByteString) (h : 0x25 ∉ v) :
    QueryUnescape v = (v.map plusToSpace, none) := by
  simp [QueryUnescape, unescapeCheck_plain v h, unescapeBytes_plain v h]

theorem parseQueryLoop_nil (fuel : Nat) (m : Values) (err : Option FormError) :
    parseQueryLoop fuel [] m err = (m, err) := by
  cases fuel <;> simp [parseQueryLoop]

theorem parseQueryLoop_step (fuel : Nat) (key value query rest : ByteString) (m : Values)
    (err : Option FormError) (hcut : cut 0x26 query = (key ++ 0x3D :: value, rest))
    (hk0 : key ≠ []) (hk3B : 0x3B ∉ key) (hk25 : 0x25 ∉ key) (hk3D : 0x3D ∉ key)
    (hv : IsPlain value) :
    parseQueryLoop (fuel + 1) query m err =
      parseQueryLoop fuel rest (m.add (key.map plusToSpace) [value.map plusToSpace]) err := by
  have hq : query.isEmpty = false := by
    cases query with
    | nil =>
      simp only [cut, Prod.mk.injEq] at hcut
      exact absurd hcut.1.symm (by simp)
    | cons c cs => rfl
  have hsemi : (key ++ 0x3D :: value).contains 0x3B = false := by
    rw [List.contains_eq_any_beq, List.any_eq_false]
    intro x hx hx3B
    rw [beq_iff_eq] at hx3B
    subst hx3B
    rcases List.mem_append.mp hx with h | h
    · exact hk3B h
    · rcases List.mem_cons.mp h with h | h
      · exact absurd h (by decide)
      · exact hv.2.1 h
  have hne : (key ++ 0x3D :: value).isEmpty = false := by
    cases key <;> rfl
  have hcut2 : cut 0x3D (key ++ 0x3D :: value) = (key, value) := cut_append_sep _ _ _ hk3D
  rw [parseQueryLoop]
  simp only [hq, Bool.false_eq_true, if_false, hcut, hsemi, hne, hcut2,
    queryUnescape_plain key hk25, queryUnescape_plain value hv.2.2]

theorem parseQueryLoop_pair (fuel : Nat) (key value rest : ByteString) (m : Values)
    (err : Option FormError) (hk0 : key ≠ []) (hk26 : 0x26 ∉ key) (hk3B : 0x3B ∉ key)
    (hk25 : 0x25 ∉ key) (hk3D : 0x3D ∉ key) (hv : IsPlain value) :
    parseQueryLoop (fuel + 1) (key ++ 0x3D :: value ++ 0x26 :: rest) m err =
      parseQueryLoop fuel rest (m.add (key.map plusToSpace) [value.map plusToSpace]) err := by
  apply parseQueryLoop_step fuel key value _ rest m err _ hk0 hk3B hk25 hk3D hv
  apply cut_append_sep
  intro hx
  rcases List.mem_append.mp hx with h | h
  · exact hk26 h
  · rcases List.mem_cons.mp h with h | h
    · exact absurd h (by decide)
    · exact hv.1 h

theorem parseQueryLoop_last (fuel : Nat) (key value : ByteString) (m : Values)
    (err : Option FormError) (hk0 : key ≠ []) (hk26 : 0x26 ∉ key) (hk3B : 0x3B ∉ key)
    (hk25 : 0x25 ∉ key) (hk3D : 0x3D ∉ key) (hv : IsPlain value) :
    parseQueryLoop (fuel + 1) (key ++ 0x3D :: value) m err =
      (m.add (key.map plusToSpace) [value.map plusToSpace], err) := by
  rw [parseQueryLoop_step fuel key value _ [] m err _ hk0 hk3B hk25 hk3D hv,
    parseQueryLoop_nil]
  apply cut_no_sep
  intro hx
  rcases List.mem_append.mp hx with h | h
  · exact hk26 h
  · rcases List.mem_cons.mp h with h | h
    · exact absurd h (by decide)
    · exact hv.1 h

theorem parseQuery_two_pairs (k1 k2 f b : ByteString) (hf : IsPlain f) (hb : IsPlain b)
    (h1 : k1 ≠ [] ∧ 0x26 ∉ k1 ∧ 0x3B ∉ k1 ∧ 0x25 ∉ k1 ∧ 0x3D ∉ k1)
    (h2 : k2 ≠ [] ∧ 0x26 ∉ k2 ∧ 0x3B ∉ k2 ∧ 0x25 ∉ k2 ∧ 0x3D ∉ k2)
    (hm1 : k1.map plusToSpace = k1) (hm2 : k2.map plusToSpace = k2) (hne : k1 ≠ k2) :
    ParseQuery (k1 ++ 0x3D :: f ++ 0x26 :: (k2 ++ 0x3D :: b)) =
      ([(k1, [f.map plusToSpace]), (k2, [b.map plusToSpace])], none) := by
  have hc1 : k1.count 0x26 = 0 := List.count_eq_zero.mpr h1.2.1
  have hc2 : k2.count 0x26 = 0 := List.count_eq_zero.mpr h2.2.1
  have hcf : f.count 0x26 = 0 := List.count_eq_zero.mpr hf.1
  have hcb : b.count 0x26 = 0 := List.count_eq_zero.mpr hb.1
  have hcount : (k1 ++ 0x3D :: f ++ 0x26 :: (k2 ++ 0x3D :: b)).count 0x26 = 1 := by
    simp [List.count_append, List.count_cons, hc1, hc2, hcf, hcb]
  have hlen : ∃ n, (k1 ++ 0x3D :: f ++ 0x26 :: (k2 ++ 0x3D :: b)).length = n + 2 := by
    refine ⟨k1.length + f.length + (k2 ++ 0x3D :: b).length, ?_⟩
    simp only [List.length_append, List.length_cons]
    omega
  obtain ⟨n, hn⟩ := hlen
  have hlim : ¬ (1 + 1 > maxQueryParams) := by decide
  unfold ParseQuery
  rw [hcount, hn, if_neg hlim,
    parseQueryLoop_pair (n + 1) k1 f _ [] none h1.1 h1.2.1 h1.2.2.1 h1.2.2.2.1 h1.2.2.2.2 hf,
    parseQueryLoop_last n k2 b _ none h2.1 h2.2.1 h2.2.2.1 h2.2.2.2.1 h2.2.2.2.2 hb,
    hm1, hm2]
  simp [Values.add, hne]

theorem parseQuery_from_body (f b : ByteString) (hf : IsPlain f) (hb : IsPlain b) :
    ParseQuery (utf8 "From=".toList ++ f ++ utf8 "&Body=".toList ++ b) =
      ([(utf8 "From".toList, [f.map plusToSpace]),
        (utf8 "Body".toList, [b.map plusToSpace])], none) := by
  have h1 : utf8 "From=".toList = utf8 "From".toList ++ [0x3D] := by decide
  have h2 : utf8 "&Body=".toList = 0x26 :: (utf8 "Body".toList ++ [0x3D]) := by decide
  have hbody : utf8 "From=".toList ++ f ++ utf8 "&Body=".toList ++ b =
      utf8 "From".toList ++ 0x3D :: f ++ 0x26 :: (utf8 "Body".toList ++ 0x3D :: b) := by
    rw [h1, h2]
    simp only [List.append_assoc, List.cons_append, List.nil_append]
  rw [hbody]
  exact parseQuery_two_pairs _ _ f b hf hb (by decide) (by decide) (by decide) (by decide)
    (by decide)

theorem copyValues_nil_right (v : Values) : copyValues v [] = v := rfl

theorem parseQuery_nil : ParseQuery [] = ([], none) := by decide

theorem copyValues_two (k1 k2 : ByteString) (v1 v2 : List ByteString) (hne : k1 ≠ k2) :
    copyValues [] [(k1, v1), (k2, v2)] = [(k1, v1), (k2, v2)] := by
  simp [copyValues, Values.add, hne]

theorem get_two (k1 k2 : ByteString) (x y : ByteString) (hne : k1 ≠ k2) :
    Values.Get [(k1, [x]), (k2, [y])] k1 = x ∧ Values.Get [(k1, [x]), (k2, [y])] k2 = y := by
  have h12 : (k1 == k2) = false := by
    rw [beq_eq_false_iff_ne]
    exact hne
  simp [Values.Get, Values.lookup, List.find?, h12]

theorem parseForm_from_body (f b : ByteString) (hf : IsPlain f) (hb : IsPlain b)
    (hsize : (utf8 "From=".toList ++ f ++ utf8 "&Body=".toList ++ b).length ≤ maxFormSize) :
    ParseForm (formPost (utf8 "From=".toList ++ f ++ utf8 "&Body=".toList ++ b)) =
      ([(utf8 "From".toList, [f.map plusToSpace]),
        (utf8 "Body".toList, [b.map plusToSpace])], none) := by
  have hsz : ¬ (utf8 "From=".toList ++ f ++ utf8 "&Body=".toList ++ b).length > maxFormSize := by
    omega
  have hm : (utf8 "POST".toList == utf8 "POST".toList) = true := by decide
  have hct : (utf8 "application/x-www-form-urlencoded".toList ==
      utf8 "application/x-www-form-urlencoded".toList) = true := by decide
  simp only [ParseForm, formPost, parsePostForm, hm, hct, Bool.true_or, if_true, hsz, if_false,
    parseQuery_from_body f b hf hb, parseQuery_nil, Option.map_none', Option.isNone_none,
    Option.getD_some, copyValues_nil_right]
  rw [copyValues_two _ _ _ _ (by decide)]

theorem unescapeCheck_trailing_percent (v : ByteString) (h : 0x25 ∉ v) :
    unescapeCheck (v ++ [0x25]) = some (.escape [0x25]) := by
  induction v with
  | nil => rfl
  | cons x xs ih =>
    have hx : (x == 0x25) = false := by
      rw [beq_eq_false_iff_ne]
      intro hxs
      exact h (hxs ▸ List.mem_cons_self _ _)
    have := ih (fun hm => h (List.mem_cons_of_mem _ hm))
    rw [List.cons_append]
    unfold unescapeCheck
    simp only [hx]
    exact this

theorem parseQuery_trailing_percent (k1 v : ByteString) (hv : IsPlain v)
    (h1 : k1 ≠ [] ∧ 0x26 ∉ k1 ∧ 0x3B ∉ k1 ∧ 0x25 ∉ k1 ∧ 0x3D ∉ k1) :
    (ParseQuery (k1 ++ 0x3D :: (v ++ [0x25]))).2 = some (.escape [0x25]) := by
  have hmem : ∀ x : UInt8, x ≠ 0x3D → x ≠ 0x25 → x ∉ k1 → x ∉ v →
      x ∉ k1 ++ 0x3D :: (v ++ [0x25]) := by
    intro x hx1 hx2 hk hxv hx
    rcases List.mem_append.mp hx with h | h
    · exact hk h
    · rcases List.mem_cons.mp h with h | h
      · exact hx1 h
      · rcases List.mem_append.mp h with h | h
        · exact hxv h
        · exact hx2 (List.mem_singleton.mp h)
  have h26 : (0x26 : UInt8) ∉ k1 ++ 0x3D :: (v ++ [0x25]) :=
    hmem _ (by decide) (by decide) h1.2.1 hv.1
  have h3B : (0x3B : UInt8) ∉ k1 ++ 0x3D :: (v ++ [0x25]) :=
    hmem _ (by decide) (by decide) h1.2.2.1 hv.2.1
  have hcount : (k1 ++ 0x3D :: (v ++ [0x25])).count 0x26 = 0 := List.count_eq_zero.mpr h26
  have hlen : ∃ n, (k1 ++ 0x3D :: (v ++ [0x25])).length = n + 1 := by
    refine ⟨k1.length + (v ++ [0x25]).length, ?_⟩
    simp only [List.length_append, List.length_cons, List.length_nil]
    omega
  obtain ⟨n, hn⟩ := hlen
  have hlim : ¬ (0 + 1 > maxQueryParams) := by decide
  have hq : (k1 ++ 0x3D :: (v ++ [0x25])).isEmpty = false := by
    cases k1 <;> rfl
  have hsemi : (k1 ++ 0x3D :: (v ++ [0x25])).contains 0x3B = false := by
    rw [List.contains_eq_any_beq, List.any_eq_false]
    intro x hx hx3B
    rw [beq_iff_eq] at hx3B
    subst hx3B
    exact h3B hx
  have hqv : QueryUnescape (v ++ [0x25]) = ([], some (.escape [0x25])) := by
    simp only [QueryUnescape, unescapeCheck_trailing_percent v hv.2.2]
  unfold ParseQuery
  rw [hcount, hn, if_neg hlim, parseQueryLoop]
  simp only [hq, Bool.false_eq_true, if_false, cut_no_sep _ _ h26, hsemi,
    cut_append_sep _ _ _ h1.2.2.2.2, queryUnescape_plain k1 h1.2.2.2.1, hqv,
    parseQueryLoop_nil, Option.isNone_none, if_true]

theorem parseForm_formPost_err (body : ByteString) :
    (ParseForm (formPost body)).2 =
      if body.length > maxFormSize then some .postTooLarge else (ParseQuery body).2 := by
  have hm : (utf8 "POST".toList == utf8 "POST".toList) = true := by decide
  have hct : (utf8 "application/x-www-form-urlencoded".toList ==
      utf8 "application/x-www-form-urlencoded".toList) = true := by decide
  by_cases hsz : body.length > maxFormSize
  · simp only [ParseForm, formPost, parsePostForm, hm, hct, Bool.true_or, if_true, hsz,
      parseQuery_nil, Option.isNone_some, Bool.false_eq_true, if_false]
  · rcases hq : ParseQuery body with ⟨vs, e⟩
    cases e <;>
      simp only [ParseForm, formPost, parsePostForm, hm, hct, Bool.true_or, if_true, hsz,
        if_false, hq, parseQuery_nil, Option.map_none', Option.isNone_none,
        Option.isNone_some, Bool.false_eq_true]

theorem splitLines_single (line : ByteString) (h : 0x0A ∉ line) :
    splitLines (line ++ [0x0A]) = [line] := by
  induction line with
  | nil => rfl
  | cons c cs ih =>
    have hc : (c == 0x0A) = false := by
      rw [beq_eq_false_iff_ne]
      intro hcs
      exact h (hcs ▸ List.mem_cons_self _ _)
    have := ih (fun hm => h (List.mem_cons_of_mem _ hm))
    simp only [List.cons_append, splitLines, hc, Bool.false_eq_true, if_false,
      List.append_eq, this]

theorem handleCallback_not_ends (r : Request) : (handleCallback r).any Effect.ends = false := by
  unfold handleCallback
  rcases ParseForm r with ⟨form, _ | e⟩ <;> rfl

theorem listenerGoroutine_append (before rest : List Arrival)
    (h : ∀ err, Arrival.serveError err ∉ before) :
    listenerGoroutine (before ++ rest) = listenerGoroutine before ++ listenerGoroutine rest := by
  induction before with
  | nil => rfl
  | cons a as ih =>
    have ih' := ih (fun err hm => h err (List.mem_cons_of_mem _ hm))
    cases a with
    | request r =>
      simp only [List.cons_append, listenerGoroutine, handleCallback_not_ends,
        Bool.false_eq_true, if_false, List.append_eq, ih', List.append_assoc]
    | answered =>
      simp only [List.cons_append, listenerGoroutine, List.append_eq, ih']
    | serveError err => exact absurd (List.mem_cons_self _ _) (h err)

/-! ## The callback listener -/

/-- C5, as stated, fails twice. The request with the form body
`From=+15551234567&Body=hello` parses successfully and the line emitted is
` 15551234567 hello` (form decoding turns `+` into a space), not
`+15551234567 hello`. The request with the form body
`From=%2B15551234567&Body=line1%0Aline2` parses successfully and two lines are
emitted, `+15551234567 line1` and `line2`, not one. -/
theorem handleCallback_plus_counterexample :
    (ParseForm (formPost (utf8 "From=+15551234567&Body=hello".toList))).2 = none ∧
    consoleLines (handleCallback (formPost (utf8 "From=+15551234567&Body=hello".toList))) =
      [utf8 " 15551234567 hello".toList] ∧
    consoleLines (handleCallback (formPost (utf8 "From=+15551234567&Body=hello".toList))) ≠
      [utf8 "+15551234567 hello".toList] ∧
    (ParseForm (formPost (utf8 "From=%2B15551234567&Body=line1%0Aline2".toList))).2 = none ∧
    consoleLines
        (handleCallback (formPost (utf8 "From=%2B15551234567&Body=line1%0Aline2".toList))) =
      [utf8 "+15551234567 line1".toList, utf8 "line2".toList] := by
  decide

/-- C5, amended: for every request whose form parses successfully,
`handleCallback` makes exactly one write: the decoded value of field `From`, one
space, the decoded value of field `Body`, then a newline; this is exactly one
line on the console when neither decoded value contains a line feed. The values
are form-decoded: for a body `From=f&Body=b` in which `f` and `b` have no `&`,
`;` or `%`, what is written is `f`, a space, `b` and a newline with every `+`
of `f` and `b` turned into a space. In particular the request with the form
body `From=%2B15551234567&Body=hello` emits exactly the line
`+15551234567 hello`. -/
theorem handleCallback_prints_message :
    (∀ r : Request, (ParseForm r).2 = none →
      handleCallback r =
        [.write ((ParseForm r).1.Get (utf8 "From".toList) ++ utf8 " ".toList ++
          (ParseForm r).1.Get (utf8 "Body".toList) ++ utf8 "\n".toList)] ∧
      (0x0A ∉ (ParseForm r).1.Get (utf8 "From".toList) →
        0x0A ∉ (ParseForm r).1.Get (utf8 "Body".toList) →
        consoleLines (handleCallback r) =
          [(ParseForm r).1.Get (utf8 "From".toList) ++ utf8 " ".toList ++
            (ParseForm r).1.Get (utf8 "Body".toList)])) ∧
    (∀ f b : ByteString, IsPlain f → IsPlain b →
      (utf8 "From=".toList ++ f ++ utf8 "&Body=".toList ++ b).length ≤ maxFormSize →
      handleCallback (formPost (utf8 "From=".toList ++ f ++ utf8 "&Body=".toList ++ b)) =
        [.write (f.map plusToSpace ++ utf8 " ".toList ++ b.map plusToSpace ++
          utf8 "\n".toList)]) ∧
    (ParseForm (formPost (utf8 "From=%2B15551234567&Body=hello".toList))).2 = none ∧
    consoleLines (handleCallback (formPost (utf8 "From=%2B15551234567&Body=hello".toList))) =
      [utf8 "+15551234567 hello".toList] := by
  have hgen : ∀ r : Request, (ParseForm r).2 = none →
      handleCallback r =
        [.write ((ParseForm r).1.Get (utf8 "From".toList) ++ utf8 " ".toList ++
          (ParseForm r).1.Get (utf8 "Body".toList) ++ utf8 "\n".toList)] := by
    intro r h
    rcases hp : ParseForm r with ⟨form, err⟩
    rw [hp] at h
    simp only at h
    subst h
    simp only [handleCallback, hp]
  refine ⟨?_, ?_, by decide, by decide⟩
  · intro r h
    refine ⟨hgen r h, ?_⟩
    intro hF hB
    rw [hgen r h]
    have hsp : utf8 " ".toList = [0x20] := by decide
    have hnl : utf8 "\n".toList = [0x0A] := by decide
    have hline : (0x0A : UInt8) ∉ (ParseForm r).1.Get (utf8 "From".toList) ++ utf8 " ".toList ++
        (ParseForm r).1.Get (utf8 "Body".toList) := by
      rw [hsp]
      intro hx
      rcases List.mem_append.mp hx with hx | hx
      · rcases List.mem_append.mp hx with hx | hx
        · exact hF hx
        · exact absurd (List.mem_singleton.mp hx) (by decide)
      · exact hB hx
    have := splitLines_single _ hline
    rw [← hnl] at this
    simpa [consoleLines, written] using this
  · intro f b hf hb hsize
    have hp := parseForm_from_body f b hf hb hsize
    have hget := get_two (utf8 "From".toList) (utf8 "Body".toList) (f.map plusToSpace)
      (b.map plusToSpace) (by decide)
    rw [hgen _ (by rw [hp]), hp]
    simp only [hget.1, hget.2]

/-- The request with the form body `From=%2B15551234567&Body=hello%21` parses to
the fields `+15551234567` and `hello!`, and the one line emitted is
`+15551234567 hello!`; the request with the body `From=a+b&Body=c+d=e` emits
`a b c d=e`. -/
theorem handleCallback_prints_message_witness :
    (ParseForm (formPost (utf8 "From=%2B15551234567&Body=hello%21".toList))).2 = none ∧
    0x0A ∉ (ParseForm (formPost (utf8 "From=%2B15551234567&Body=hello%21".toList))).1.Get
      (utf8 "From".toList) ∧
    0x0A ∉ (ParseForm (formPost (utf8 "From=%2B15551234567&Body=hello%21".toList))).1.Get
      (utf8 "Body".toList) ∧
    consoleLines
        (handleCallback (formPost (utf8 "From=%2B15551234567&Body=hello%21".toList))) =
      [(ParseForm (formPost (utf8 "From=%2B15551234567&Body=hello%21".toList))).1.Get
          (utf8 "From".toList) ++ utf8 " ".toList ++
        (ParseForm (formPost (utf8 "From=%2B15551234567&Body=hello%21".toList))).1.Get
          (utf8 "Body".toList)] ∧
    consoleLines
        (handleCallback (formPost (utf8 "From=%2B15551234567&Body=hello%21".toList))) =
      [utf8 "+15551234567 hello!".toList] ∧
    handleCallback
        (formPost (utf8 "From=".toList ++ utf8 "a+b".toList ++ utf8 "&Body=".toList ++
          utf8 "c+d=e".toList)) =
      [.write ((utf8 "a+b".toList).map plusToSpace ++ utf8 " ".toList ++
        (utf8 "c+d=e".toList).map plusToSpace ++ utf8 "\n".toList)] ∧
    (utf8 "a+b".toList).map plusToSpace ++ utf8 " ".toList ++
        (utf8 "c+d=e".toList).map plusToSpace ++ utf8 "\n".toList =
      utf8 "a b c d=e\n".toList :=
  ⟨by decide, by decide, by decide,
    (handleCallback_prints_message.1
      (formPost (utf8 "From=%2B15551234567&Body=hello%21".toList)) (by decide)).2
      (by decide) (by decide),
    by decide,
    handleCallback_prints_message.2.1 (utf8 "a+b".toList) (utf8 "c+d=e".toList)
      (by unfold IsPlain; decide) (by unfold IsPlain; decide) (by decide),
    by decide⟩

/-- C6: for every request whose form cannot be parsed, `handleCallback` makes a
single write, the fixed notice "Received a message but couldn't parse body" (so
the only line on the console is the notice: no line is made of the fields of
the request), and ends neither the process nor the listener: in the goroutine
that serves the requests, as long as `http.Serve` has not returned, what
arrives after it is handled as if it had not come. Requests whose form cannot be parsed include every form post with 10000
or more `&`, every form post larger than 10 MB, and every form post
`Body=v%` with `v` free of `&`, `;` and `%`. -/
theorem handleCallback_drops_unparsable :
    (∀ r : Request, (ParseForm r).2 ≠ none →
      handleCallback r = [.write parseFailureLine] ∧
      consoleLines (handleCallback r) =
        [utf8 "Received a message but couldn't parse body".toList] ∧
      (∀ e ∈ handleCallback r, e.ends = false) ∧
      ∀ (before after : List Arrival), (∀ err, Arrival.serveError err ∉ before) →
        listenerGoroutine (before ++ Arrival.request r :: after) =
          listenerGoroutine before ++ [.write parseFailureLine] ++
            listenerGoroutine after) ∧
    (∀ body : ByteString, maxQueryParams ≤ body.count 0x26 →
      (ParseForm (formPost body)).2 ≠ none) ∧
    (∀ body : ByteString, maxFormSize < body.length →
      (ParseForm (formPost body)).2 ≠ none) ∧
    (∀ v : ByteString, IsPlain v →
      (ParseForm (formPost (utf8 "Body=".toList ++ v ++ utf8 "%".toList))).2 ≠ none) := by
  refine ⟨?_, ?_, ?_, ?_⟩
  · intro r h
    have hr : handleCallback r = [.write parseFailureLine] := by
      rcases hp : ParseForm r with ⟨form, err⟩
      rw [hp] at h
      cases err with
      | none => exact absurd rfl h
      | some e => simp only [handleCallback, hp]
    refine ⟨hr, ?_, ?_, ?_⟩
    · rw [hr]
      decide
    · intro e he
      rw [hr] at he
      rw [List.mem_singleton.mp he]
      rfl
    · intro before after hb
      have hends : (handleCallback r).any Effect.ends = false := handleCallback_not_ends r
      rw [listenerGoroutine_append before _ hb, listenerGoroutine, if_neg (by rw [hends]; simp),
        hr, List.append_assoc]
  · intro body hcount
    rw [parseForm_formPost_err]
    by_cases hsz : body.length > maxFormSize
    · simp [hsz]
    · have hlim : body.count 0x26 + 1 > maxQueryParams := by omega
      simp [hsz, ParseQuery, hlim]
  · intro body hsz
    rw [parseForm_formPost_err]
    simp [hsz]
  · intro v hv
    rw [parseForm_formPost_err]
    by_cases hsz : (utf8 "Body=".toList ++ v ++ utf8 "%".toList).length > maxFormSize
    · rw [if_pos hsz]
      exact Option.some_ne_none _
    · have h1 : utf8 "Body=".toList = utf8 "Body".toList ++ [0x3D] := by decide
      have h2 : utf8 "%".toList = [0x25] := by decide
      have hbody : utf8 "Body=".toList ++ v ++ utf8 "%".toList =
          utf8 "Body".toList ++ 0x3D :: (v ++ [0x25]) := by
        rw [h1, h2]
        simp only [List.append_assoc, List.cons_append, List.nil_append]
      rw [if_neg hsz, hbody, parseQuery_trailing_percent _ v hv (by decide)]
      simp

/-- The request with the form body `From=%2B15551234567&Body=hello%zz` cannot be
parsed (`%zz` is no escape): only the notice is written, and in the listener the
request `From=a&Body=b` that comes after it is served; the listener ends only
when `http.Serve` returns. A body of 10000 `&` cannot be parsed either. -/
theorem handleCallback_drops_unparsable_witness :
    (ParseForm (formPost (utf8 "From=%2B15551234567&Body=hello%zz".toList))).2 ≠ none ∧
    handleCallback (formPost (utf8 "From=%2B15551234567&Body=hello%zz".toList)) =
      [.write parseFailureLine] ∧
    listenerGoroutine
        [.request (formPost (utf8 "From=%2B15551234567&Body=hello%zz".toList)),
          .answered,
          .request (formPost (utf8 "From=a&Body=b".toList)),
          .serveError "closed".toList,
          .request (formPost (utf8 "From=c&Body=d".toList))] =
      [.write parseFailureLine, .write (utf8 "a b\n".toList), .panic "closed".toList] ∧
    (ParseForm (formPost (List.replicate 10000 0x26))).2 ≠ none :=
  ⟨by decide,
    (handleCallback_drops_unparsable.1
      (formPost (utf8 "From=%2B15551234567&Body=hello%zz".toList)) (by decide)).1,
    by decide,
    handleCallback_drops_unparsable.2.1 (List.replicate 10000 0x26)
      (by rw [List.count_replicate_self]; decide)⟩

end Twicat
